import Mathlib

/-!
Verification of the `number` package (JingIsCoding/number).

A shallow embedding of `number.go`: the two concrete types `intNumber`
(a Go `int64`) and `floatNumber` (a Go `float64`), the interface `Number`
they implement, the coercion `Of`, and the arithmetic and comparison methods.

Machine integers are mathematical integers kept in range by an explicit
wrap-around.  Floating point values are IEEE-754 binary64 values given by
sign and magnitude bit pattern, every operation being the exact result
rounded to nearest, ties to even.  All NaN bit patterns are identified in one
value `nan`: Go programs cannot tell them apart with `==`, `<` or `>`.

The decimal shift and the rounding methods are embedded on binary64, with
`math.Pow10`, `math.Round`, `math.Ceil` and `math.Floor` as the Go standard
library computes them.  Statements on the values they return compare the exact
rational value `float64.toRat` of the binary64 result with the rounding of the
exact value of the argument.
-/

namespace number

/-! ## Machine integers -/

/-- Go `int8`. -/
@[ext] structure int8 where
  val : Int
  lo : -128 ≤ val
  hi : val < 128
deriving DecidableEq

/-- Go `int16`. -/
@[ext] structure int16 where
  val : Int
  lo : -32768 ≤ val
  hi : val < 32768
deriving DecidableEq

/-- Go `int32`. -/
@[ext] structure int32 where
  val : Int
  lo : -2147483648 ≤ val
  hi : val < 2147483648
deriving DecidableEq

/-- Go `int64`: the integers from `-2^63` to `2^63 - 1`.  Go `int` is taken to be
64 bits wide as well (the amd64 and arm64 ports). -/
@[ext] structure int64 where
  val : Int
  lo : -9223372036854775808 ≤ val
  hi : val < 9223372036854775808
deriving DecidableEq

/-- Two's-complement reduction of an integer to 64 bits. -/
def int64.wrap (x : Int) : int64 :=
  ⟨(x + 9223372036854775808) % 18446744073709551616 - 9223372036854775808,
    by omega, by omega⟩

/-- Literal of type `int64`; the value is reduced to 64 bits. -/
def int64.lit (x : Int) : int64 := int64.wrap x

/-- The smallest `int64`, `-2^63`. -/
def int64.minValue : int64 := ⟨-9223372036854775808, by decide, by decide⟩

/-- Go `i + j` on `int64`. -/
def int64.add (i j : int64) : int64 := int64.wrap (i.val + j.val)

/-- Go `i - j` on `int64`. -/
def int64.sub (i j : int64) : int64 := int64.wrap (i.val - j.val)

/-- Go `i * j` on `int64`. -/
def int64.mul (i j : int64) : int64 := int64.wrap (i.val * j.val)

/-- Go unary `-i` on `int64`. -/
def int64.neg (i : int64) : int64 := int64.wrap (-i.val)

/-- Go `int64(v)` for `v` of type `int8`. -/
def int8.toInt64 (v : int8) : int64 := ⟨v.val, by have := v.lo; omega, by have := v.hi; omega⟩

/-- Go `int64(v)` for `v` of type `int16`. -/
def int16.toInt64 (v : int16) : int64 := ⟨v.val, by have := v.lo; omega, by have := v.hi; omega⟩

/-- Go `int64(v)` for `v` of type `int32`. -/
def int32.toInt64 (v : int32) : int64 := ⟨v.val, by have := v.lo; omega, by have := v.hi; omega⟩

/-! ## IEEE-754 binary64 and binary32 -/

/-- Number of magnitude patterns of finite binary64 values: `2047 * 2^52`. -/
abbrev finiteMags64 : Nat := 9218868437227405312

/-- Number of magnitude patterns of finite binary32 values: `255 * 2^23`. -/
abbrev finiteMags32 : Nat := 2139095040

/-- Go `float64`.  A finite value is its sign bit and its magnitude pattern
`mag = biasedExponent * 2^52 + fraction`, the low 63 bits of the encoding. -/
inductive float64
  | nan
  | inf (neg : Bool)
  | fin (neg : Bool) (mag : Fin finiteMags64)
deriving DecidableEq

/-- Go `float32`, encoded like `float64` with an 8 bit exponent and a 23 bit
fraction. -/
inductive float32
  | nan
  | inf (neg : Bool)
  | fin (neg : Bool) (mag : Fin finiteMags32)
deriving DecidableEq

/-- Bit length of `n`, by halving; `fuel` bounds the number of halvings. -/
def bitLenAux : Nat → Nat → Nat
  | 0, _ => 0
  | fuel + 1, n => if n = 0 then 0 else bitLenAux fuel (n / 2) + 1

/-- Bit length of `n`: the least `k` with `n < 2^k`. -/
def bitLen (n : Nat) : Nat := bitLenAux n n

/-- The exponent of the unit in which finite binary64 values are counted:
every finite value is an integer multiple of `2^-1074`. -/
def unitExp : Nat := 1074

/-- Value `2^1074`, the number of units in `1.0`. -/
def unitScale : Nat := 2 ^ unitExp

/-- Magnitude of the finite binary64 value with magnitude pattern `mag`, in
units of `2^-1074`: `fraction` when the biased exponent is 0 (subnormal), and
`(2^52 + fraction) * 2^(biasedExponent - 1)` otherwise. -/
def float64.units (mag : Nat) : Nat :=
  if mag / 2 ^ 52 = 0 then mag
  else (2 ^ 52 + mag % 2 ^ 52) * 2 ^ (mag / 2 ^ 52 - 1)

/-- Magnitude of the finite binary32 value with magnitude pattern `mag`, in
units of `2^-149`. -/
def float32.units (mag : Nat) : Nat :=
  if mag / 2 ^ 23 = 0 then mag
  else (2 ^ 23 + mag % 2 ^ 23) * 2 ^ (mag / 2 ^ 23 - 1)

/-- Round `n / d` to the nearest integer, ties to the even one. -/
def roundHalfEven (n d : Nat) : Nat :=
  let m := n / d
  let r := n % d
  if d < 2 * r ∨ (2 * r = d ∧ m % 2 = 1) then m + 1 else m

/-- Magnitude pattern of the binary64 value nearest to `n / d` units of
`2^-1074` (ties to even), `d` positive.  `k` is the binary exponent of the
spacing of binary64 values around `n / d`; a carry out of the significand
moves into the exponent field by itself.  The result may reach `2047 * 2^52`
and beyond: that is overflow. -/
def roundMag (n d : Nat) : Nat :=
  let k := bitLen (n / d) - 53
  k * 2 ^ 52 + roundHalfEven n (d * 2 ^ k)

/-- The binary64 value of sign `neg` nearest to `n / d` units of `2^-1074`;
infinity on overflow. -/
def float64.round (neg : Bool) (n d : Nat) : float64 :=
  if h : roundMag n d < finiteMags64 then .fin neg ⟨roundMag n d, h⟩ else .inf neg

/-- Signed value of a finite binary64 value in units of `2^-1074`. -/
def float64.signedUnits (neg : Bool) (mag : Nat) : Int :=
  if neg then -(float64.units mag : Int) else (float64.units mag : Int)

/-- Go unary `-x` on `float64`. -/
def float64.neg : float64 → float64
  | .nan => .nan
  | .inf s => .inf (!s)
  | .fin s m => .fin (!s) m

/-- Go `x + y` on `float64`. -/
def float64.add : float64 → float64 → float64
  | .nan, _ => .nan
  | _, .nan => .nan
  | .inf s, .inf t => if s = t then .inf s else .nan
  | .inf s, .fin _ _ => .inf s
  | .fin _ _, .inf t => .inf t
  | .fin s m, .fin t n =>
    let v := float64.signedUnits s m.val + float64.signedUnits t n.val
    if v = 0 then .fin (s && t) ⟨0, by decide⟩
    else float64.round (decide (v < 0)) v.natAbs 1

/-- Go `x - y` on `float64`. -/
def float64.sub (x y : float64) : float64 := x.add y.neg

/-- Go `x * y` on `float64`. -/
def float64.mul : float64 → float64 → float64
  | .nan, _ => .nan
  | _, .nan => .nan
  | .inf s, .inf t => .inf (xor s t)
  | .inf s, .fin t n => if n.val = 0 then .nan else .inf (xor s t)
  | .fin s m, .inf t => if m.val = 0 then .nan else .inf (xor s t)
  | .fin s m, .fin t n =>
    float64.round (xor s t) (float64.units m.val * float64.units n.val) unitScale

/-- Go `x / y` on `float64`. -/
def float64.div : float64 → float64 → float64
  | .nan, _ => .nan
  | _, .nan => .nan
  | .inf _, .inf _ => .nan
  | .inf s, .fin t _ => .inf (xor s t)
  | .fin s _, .inf t => .fin (xor s t) ⟨0, by decide⟩
  | .fin s m, .fin t n =>
    if n.val = 0 then (if m.val = 0 then .nan else .inf (xor s t))
    else float64.round (xor s t) (float64.units m.val * unitScale) (float64.units n.val)

/-- Go `x == y` on `float64`: false when either is NaN, `-0 == +0`. -/
def float64.eq : float64 → float64 → Bool
  | .nan, _ => false
  | _, .nan => false
  | .inf s, .inf t => s == t
  | .inf _, .fin _ _ => false
  | .fin _ _, .inf _ => false
  | .fin s m, .fin t n =>
    decide (float64.signedUnits s m.val = float64.signedUnits t n.val)

/-- Go `x < y` on `float64`: false when either is NaN. -/
def float64.lt : float64 → float64 → Bool
  | .nan, _ => false
  | _, .nan => false
  | .inf s, .inf t => s && !t
  | .inf s, .fin _ _ => s
  | .fin _ _, .inf t => !t
  | .fin s m, .fin t n =>
    decide (float64.signedUnits s m.val < float64.signedUnits t n.val)

/-- Go `x > y` on `float64`. -/
def float64.gt (x y : float64) : Bool := float64.lt y x

/-- Go `float64(i)` for `i` of type `int64`: the nearest binary64 value. -/
def float64.ofInt64 (i : int64) : float64 :=
  float64.round (decide (i.val < 0)) (i.val.natAbs * unitScale) 1

/-- Number of units of `2^-1074` in the binary32 unit `2^-149`. -/
def float32.unitRatio : Nat := 2 ^ 925

/-- Go `float64(x)` for `x` of type `float32`; every binary32 value is a
binary64 value. -/
def float32.toFloat64 : float32 → float64
  | .nan => .nan
  | .inf s => .inf s
  | .fin s m => float64.round s (float32.units m.val * float32.unitRatio) 1

/-- Go `math.Abs`. -/
def float64.abs : float64 → float64
  | .nan => .nan
  | .inf _ => .inf false
  | .fin _ m => .fin false m

/-- The `float64` constant `0.0`. -/
def float64.zero : float64 := .fin false ⟨0, by decide⟩

/-! ## The package `number` -/

/-- Go `type intNumber int64`. -/
abbrev intNumber : Type := int64

/-- Go `type floatNumber float64`. -/
abbrev floatNumber : Type := float64

/-- A non-nil value of the interface `Number`: the package has exactly two
implementations, `intNumber` and `floatNumber`. -/
inductive Number
  | ofInt (i : intNumber)
  | ofFloat (f : floatNumber)
deriving DecidableEq

/-- A Go value of type `any` as `Of` sees it: one constructor for each case of
its type switch, and `other` for a value of any other dynamic type (a string,
an unsigned integer, nil, ...), which takes the `default` case. -/
inductive GoAny
  | int8 (v : number.int8)
  | int16 (v : number.int16)
  | int (v : number.int64)
  | int32 (v : number.int32)
  | int64 (v : number.int64)
  | float32 (v : number.float32)
  | float64 (v : number.float64)
  | intNumber (v : number.intNumber)
  | floatNumber (v : number.floatNumber)
  | other

/-- A `Number` passed where `any` is expected keeps its dynamic type. -/
def Number.toAny : Number → GoAny
  | .ofInt i => .intNumber i
  | .ofFloat f => .floatNumber f

/-- Go `error` values the package returns. -/
inductive GoError
  | DivideByZeroError
deriving DecidableEq

/-- Go `Zero`. -/
def Zero : Number := .ofInt (int64.lit 0)

/-- Go `Of`. -/
def Of : GoAny → Number
  | .int8 v => .ofInt v.toInt64
  | .int16 v => .ofInt v.toInt64
  | .int v => .ofInt v
  | .int32 v => .ofInt v.toInt64
  | .int64 v => .ofInt v
  | .float32 v => .ofFloat v.toFloat64
  | .float64 v => .ofFloat v
  | .intNumber v => .ofInt v
  | .floatNumber v => .ofFloat v
  | .other => .ofInt (int64.lit 0)

/-- Go `floatNumber.GetFloat`. -/
def floatNumber.GetFloat (f : floatNumber) : float64 := f

/-- Go `intNumber.GetFloat`. -/
def intNumber.GetFloat (i : intNumber) : float64 := float64.ofInt64 i

/-- Go `intNumber.GetInt`. -/
def intNumber.GetInt (i : intNumber) : int64 := i

/-- Go `floatNumber.IsZero`. -/
def floatNumber.IsZero (f : floatNumber) : Bool := float64.eq f float64.zero

/-- Go `intNumber.IsZero`. -/
def intNumber.IsZero (i : intNumber) : Bool := decide (i = int64.lit 0)

/-- Go `Number.IsZero`, by dynamic dispatch. -/
def Number.IsZero : Number → Bool
  | .ofInt i => intNumber.IsZero i
  | .ofFloat f => floatNumber.IsZero f

/-- Go `floatNumber.Add`.  The `default` case of the type switch on the result
of `Of` cannot be taken and has no counterpart here; the same holds for the
other methods. -/
def floatNumber.Add (f : floatNumber) (another : GoAny) : Number :=
  match Of another with
  | .ofInt j => .ofFloat (float64.add f (float64.ofInt64 j))
  | .ofFloat g => .ofFloat (float64.add f g)

/-- Go `floatNumber.Minus`. -/
def floatNumber.Minus (f : floatNumber) (another : GoAny) : Number :=
  match Of another with
  | .ofInt j => .ofFloat (float64.sub f (float64.ofInt64 j))
  | .ofFloat g => .ofFloat (float64.sub f g)

/-- Go `floatNumber.Divide`. -/
def floatNumber.Divide (f : floatNumber) (another : GoAny) : Number × Option GoError :=
  let num := Of another
  if num.IsZero then (.ofFloat f, some .DivideByZeroError)
  else
    match num with
    | .ofFloat g => (.ofFloat (float64.div f g), none)
    | .ofInt j => (.ofFloat (float64.div f (float64.ofInt64 j)), none)

/-- Go `floatNumber.Multiply`. -/
def floatNumber.Multiply (f : floatNumber) (another : GoAny) : Number :=
  match Of another with
  | .ofInt j => .ofFloat (float64.mul f (float64.ofInt64 j))
  | .ofFloat g => .ofFloat (float64.mul f g)

/-- Go `floatNumber.Abs`. -/
def floatNumber.Abs (f : floatNumber) : Number := .ofFloat (float64.abs f)

/-- Go `floatNumber.IsEqualTo`. -/
def floatNumber.IsEqualTo (f : floatNumber) (another : GoAny) : Bool :=
  match Of another with
  | .ofFloat g => float64.eq f g
  | .ofInt j => float64.eq f (float64.ofInt64 j)

/-- Go `floatNumber.IsLessThan`. -/
def floatNumber.IsLessThan (f : floatNumber) (another : GoAny) : Bool :=
  match Of another with
  | .ofInt j => float64.lt f (float64.ofInt64 j)
  | .ofFloat g => float64.lt f g

/-- Go `floatNumber.IsGreaterThan`. -/
def floatNumber.IsGreaterThan (f : floatNumber) (another : GoAny) : Bool :=
  match Of another with
  | .ofFloat g => float64.gt f g
  | .ofInt j => float64.gt f (float64.ofInt64 j)

/-- Go `floatNumber.IsLessThanOrEqualTo`. -/
def floatNumber.IsLessThanOrEqualTo (f : floatNumber) (another : GoAny) : Bool :=
  !floatNumber.IsGreaterThan f another

/-- Go `floatNumber.IsGreaterThanOrEqualTo`. -/
def floatNumber.IsGreaterThanOrEqualTo (f : floatNumber) (another : GoAny) : Bool :=
  !floatNumber.IsLessThan f another

/-- Go `intNumber.Add`. -/
def intNumber.Add (i : intNumber) (another : GoAny) : Number :=
  match Of another with
  | .ofInt j => .ofInt (int64.add i j)
  | .ofFloat g => .ofFloat (float64.add (float64.ofInt64 i) g)

/-- Go `intNumber.Minus`. -/
def intNumber.Minus (i : intNumber) (another : GoAny) : Number :=
  match Of another with
  | .ofInt j => .ofInt (int64.sub i j)
  | .ofFloat g => .ofFloat (float64.sub (float64.ofInt64 i) g)

/-- Go `intNumber.Divide`. -/
def intNumber.Divide (i : intNumber) (another : GoAny) : Number × Option GoError :=
  let num := Of another
  if num.IsZero then (.ofInt i, some .DivideByZeroError)
  else
    match num with
    | .ofFloat g => (.ofFloat (float64.div (float64.ofInt64 i) g), none)
    | .ofInt j => (.ofFloat (float64.div (float64.ofInt64 i) (float64.ofInt64 j)), none)

/-- Go `intNumber.Multiply`. -/
def intNumber.Multiply (i : intNumber) (another : GoAny) : Number :=
  match Of another with
  | .ofInt j => .ofInt (int64.mul i j)
  | .ofFloat g => .ofFloat (float64.mul (float64.ofInt64 i) g)

/-- Go `intNumber.Abs`. -/
def intNumber.Abs (i : intNumber) : Number :=
  if i.val < 0 then .ofInt (int64.neg i) else .ofInt i

/-- Go `intNumber.IsEqualTo`. -/
def intNumber.IsEqualTo (i : intNumber) (another : GoAny) : Bool :=
  match Of another with
  | .ofFloat g => float64.eq (float64.ofInt64 i) g
  | .ofInt j => decide (i = j)

/-- Go `intNumber.IsGreaterThan`. -/
def intNumber.IsGreaterThan (i : intNumber) (another : GoAny) : Bool :=
  match Of another with
  | .ofInt j => decide (j.val < i.val)
  | .ofFloat g => float64.gt (float64.ofInt64 i) g

/-- Go `intNumber.IsLessThan`. -/
def intNumber.IsLessThan (i : intNumber) (another : GoAny) : Bool :=
  match Of another with
  | .ofInt j => decide (i.val < j.val)
  | .ofFloat g => float64.lt (float64.ofInt64 i) g

/-- Go `intNumber.IsGreaterThanOrEqualTo`. -/
def intNumber.IsGreaterThanOrEqualTo (i : intNumber) (another : GoAny) : Bool :=
  !intNumber.IsLessThan i another

/-- Go `intNumber.IsLessThanOrEqualTo`. -/
def intNumber.IsLessThanOrEqualTo (i : intNumber) (another : GoAny) : Bool :=
  !intNumber.IsGreaterThan i another

/-! ### The interface methods, by dynamic dispatch on the receiver -/

/-- Go `Number.Add`. -/
def Number.Add : Number → GoAny → Number
  | .ofInt i, x => intNumber.Add i x
  | .ofFloat f, x => floatNumber.Add f x

/-- Go `Number.Minus`. -/
def Number.Minus : Number → GoAny → Number
  | .ofInt i, x => intNumber.Minus i x
  | .ofFloat f, x => floatNumber.Minus f x

/-- Go `Number.Multiply`. -/
def Number.Multiply : Number → GoAny → Number
  | .ofInt i, x => intNumber.Multiply i x
  | .ofFloat f, x => floatNumber.Multiply f x

/-- Go `Number.Divide`. -/
def Number.Divide : Number → GoAny → Number × Option GoError
  | .ofInt i, x => intNumber.Divide i x
  | .ofFloat f, x => floatNumber.Divide f x

/-- Go `Number.Abs`. -/
def Number.Abs : Number → Number
  | .ofInt i => intNumber.Abs i
  | .ofFloat f => floatNumber.Abs f

/-- Go `Number.GetFloat`. -/
def Number.GetFloat : Number → float64
  | .ofInt i => intNumber.GetFloat i
  | .ofFloat f => floatNumber.GetFloat f

/-- Go `Number.IsEqualTo`. -/
def Number.IsEqualTo : Number → GoAny → Bool
  | .ofInt i, x => intNumber.IsEqualTo i x
  | .ofFloat f, x => floatNumber.IsEqualTo f x

/-- Go `Number.IsLessThan`. -/
def Number.IsLessThan : Number → GoAny → Bool
  | .ofInt i, x => intNumber.IsLessThan i x
  | .ofFloat f, x => floatNumber.IsLessThan f x

/-- Go `Number.IsGreaterThan`. -/
def Number.IsGreaterThan : Number → GoAny → Bool
  | .ofInt i, x => intNumber.IsGreaterThan i x
  | .ofFloat f, x => floatNumber.IsGreaterThan f x

/-- Go `Number.IsLessThanOrEqualTo`. -/
def Number.IsLessThanOrEqualTo : Number → GoAny → Bool
  | .ofInt i, x => intNumber.IsLessThanOrEqualTo i x
  | .ofFloat f, x => floatNumber.IsLessThanOrEqualTo f x

/-- Go `Number.IsGreaterThanOrEqualTo`. -/
def Number.IsGreaterThanOrEqualTo : Number → GoAny → Bool
  | .ofInt i, x => intNumber.IsGreaterThanOrEqualTo i x
  | .ofFloat f, x => floatNumber.IsGreaterThanOrEqualTo f x

/-- Go `compare`. -/
def compare (num1 num2 : Number) (larger : Bool) : Number :=
  if num1.IsGreaterThan num2.toAny then
    if larger then num1 else num2
  else
    if larger then num2 else num1

/-- Go `floatNumber.Max`. -/
def floatNumber.Max (f : floatNumber) (another : GoAny) : Number :=
  match Of another with
  | .ofInt j => compare (.ofFloat f) (.ofFloat (float64.ofInt64 j)) true
  | .ofFloat g => compare (.ofFloat f) (.ofFloat g) true

/-- Go `floatNumber.Min`. -/
def floatNumber.Min (f : floatNumber) (another : GoAny) : Number :=
  match Of another with
  | .ofInt j => compare (.ofFloat f) (.ofFloat (float64.ofInt64 j)) false
  | .ofFloat g => compare (.ofFloat f) (.ofFloat g) false

/-- Go `intNumber.Max`. -/
def intNumber.Max (i : intNumber) (another : GoAny) : Number :=
  match Of another with
  | .ofInt j => compare (.ofInt i) (.ofInt j) true
  | .ofFloat g => compare (.ofFloat (float64.ofInt64 i)) (.ofFloat g) true

/-- Go `intNumber.Min`. -/
def intNumber.Min (i : intNumber) (another : GoAny) : Number :=
  match Of another with
  | .ofFloat g => compare (.ofFloat (float64.ofInt64 i)) (.ofFloat g) false
  | .ofInt j => compare (.ofInt i) (.ofInt j) false

/-- Go `Number.Max`. -/
def Number.Max : Number → GoAny → Number
  | .ofInt i, x => intNumber.Max i x
  | .ofFloat f, x => floatNumber.Max f x

/-- Go `Number.Min`. -/
def Number.Min : Number → GoAny → Number
  | .ofInt i, x => intNumber.Min i x
  | .ofFloat f, x => floatNumber.Min f x

/-! ## Digit counts, conversion to integer and the `math` functions -/

/-- Go `uint`, 64 bits wide as `int` is. -/
@[ext] structure uint where
  val : Nat
  hi : val < 18446744073709551616
deriving DecidableEq

/-- Literal of type `uint`; the value is reduced to 64 bits. -/
def uint.lit (n : Nat) : uint := ⟨n % 18446744073709551616, Nat.mod_lt _ (by decide)⟩

/-- Go `int(d)` for `d` of type `uint`: the same 64 bits read as a signed
integer, so values from `2^63` on become negative. -/
def uint.toInt (d : uint) : int64 := int64.wrap d.val

/-- Go `int64(f)` for `f` of type `float64`: the fraction is discarded.  The
Go specification leaves the result open when the value does not fit; the amd64
port gives `-2^63` then, and for NaN and the infinities, and so does this
definition. -/
def float64.toInt64 : float64 → int64
  | .fin s m =>
    let t : Int := ((float64.units m.val / unitScale : Nat) : Int)
    let v : Int := if s then -t else t
    if h : -9223372036854775808 ≤ v ∧ v < 9223372036854775808 then ⟨v, h.1, h.2⟩
    else int64.minValue
  | _ => int64.minValue

/-- The `float64` a positive decimal constant of value `n / d` denotes: the
nearest one. -/
def float64.ofRatio (n d : Nat) : float64 := float64.round false (n * unitScale) d

/-- Go `math.pow10tab`: the constants `1e00` to `1e31`. -/
def math.pow10tab (i : Nat) : float64 := float64.ofRatio (10 ^ i) 1

/-- Go `math.pow10postab32`: the constants `1e00`, `1e32`, ..., `1e288`. -/
def math.pow10postab32 (i : Nat) : float64 := float64.ofRatio (10 ^ (32 * i)) 1

/-- Go `math.pow10negtab32`: the constants `1e-00`, `1e-32`, ..., `1e-320`. -/
def math.pow10negtab32 (i : Nat) : float64 := float64.ofRatio 1 (10 ^ (32 * i))

/-- Go `math.Pow10`, as the standard library computes it from its three
tables; `+Inf` above `10^308` and `0` below `10^-323`. -/
def math.Pow10 (n : int64) : float64 :=
  if 0 ≤ n.val ∧ n.val ≤ 308 then
    float64.mul (math.pow10postab32 (n.val.toNat / 32)) (math.pow10tab (n.val.toNat % 32))
  else if -323 ≤ n.val ∧ n.val ≤ 0 then
    float64.div (math.pow10negtab32 ((-n.val).toNat / 32)) (math.pow10tab ((-n.val).toNat % 32))
  else if 0 < n.val then .inf false
  else float64.zero

/-- Go `math.Round`: the nearest integer, halves away from zero; the sign is
kept, NaN and the infinities are returned as they are. -/
def math.Round : float64 → float64
  | .fin s m =>
    let u := float64.units m.val
    let q := u / unitScale
    float64.round s ((if unitScale ≤ 2 * (u % unitScale) then q + 1 else q) * unitScale) 1
  | x => x

/-- Go `math.Floor`: the greatest integer not above the argument. -/
def math.Floor : float64 → float64
  | .fin s m =>
    let u := float64.units m.val
    let q := u / unitScale
    if s then float64.round true ((if u % unitScale = 0 then q else q + 1) * unitScale) 1
    else float64.round false (q * unitScale) 1
  | x => x

/-- Go `math.Ceil`, which the standard library computes as `-Floor(-x)`. -/
def math.Ceil (x : float64) : float64 := float64.neg (math.Floor (float64.neg x))

/-! ## Decimal shift and the rounding methods -/

/-- Go `floatNumber.GetInt`. -/
def floatNumber.GetInt (f : floatNumber) : int64 := float64.toInt64 f

/-- Go `Number.GetInt`. -/
def Number.GetInt : Number → int64
  | .ofInt i => intNumber.GetInt i
  | .ofFloat f => floatNumber.GetInt f

/-- Go `floatNumber.ShiftDecimal`. -/
def floatNumber.ShiftDecimal (f : floatNumber) (digits : int64) : Number :=
  .ofFloat (float64.mul f (math.Pow10 digits))

/-- Go `intNumber.ShiftDecimal`. -/
def intNumber.ShiftDecimal (i : intNumber) (digits : int64) : Number :=
  .ofFloat (float64.mul (float64.ofInt64 i) (math.Pow10 digits))

/-- Go `Number.ShiftDecimal`. -/
def Number.ShiftDecimal : Number → int64 → Number
  | .ofInt i, digits => intNumber.ShiftDecimal i digits
  | .ofFloat f, digits => floatNumber.ShiftDecimal f digits

/-- Go `const DefaultRoundPrecision = 2`, used at type `int`. -/
def DefaultRoundPrecision : int64 := int64.lit 2

/-- Go `intNumber.Round`; the variadic `digits ...uint` is the list of the
arguments passed. -/
def intNumber.Round (i : intNumber) (_digits : List uint) : Number := .ofInt i

/-- Go `intNumber.RoundUp`. -/
def intNumber.RoundUp (i : intNumber) (_digits : List uint) : Number := .ofInt i

/-- Go `intNumber.RoundDown`. -/
def intNumber.RoundDown (i : intNumber) (_digits : List uint) : Number := .ofInt i

/-- Go `floatNumber.Round`. -/
def floatNumber.Round (f : floatNumber) (digits : List uint) : Number :=
  match digits with
  | d :: _ =>
    let digit := d.toInt
    (Number.ofFloat (math.Round (floatNumber.ShiftDecimal f digit).GetFloat)).ShiftDecimal
      (int64.mul digit (int64.lit (-1)))
  | [] => .ofFloat (math.Round f)

/-- Go `floatNumber.RoundUp` called with no argument, the last line of the
method. -/
def floatNumber.RoundUp.noDigits (f : floatNumber) : Number :=
  let digit := DefaultRoundPrecision
  Of (.float64 (math.Ceil
    ((Of (.int64 (floatNumber.ShiftDecimal f digit).GetInt)).ShiftDecimal
      (int64.mul digit (int64.lit (-1)))).GetFloat))

/-- Go `Number.RoundUp` called with no argument. -/
def Number.RoundUp.noDigits : Number → Number
  | .ofInt i => intNumber.RoundUp i []
  | .ofFloat f => floatNumber.RoundUp.noDigits f

/-- Go `floatNumber.RoundUp`; with an argument the method calls itself, through
the interface, with none. -/
def floatNumber.RoundUp (f : floatNumber) (digits : List uint) : Number :=
  match digits with
  | d :: _ =>
    let offDigit := d.toInt
    (Number.RoundUp.noDigits (floatNumber.ShiftDecimal f offDigit)).ShiftDecimal
      (int64.mul offDigit (int64.lit (-1)))
  | [] => floatNumber.RoundUp.noDigits f

/-- Go `floatNumber.RoundDown` called with no argument, the last line of the
method. -/
def floatNumber.RoundDown.noDigits (f : floatNumber) : Number :=
  let digit := DefaultRoundPrecision
  Of (.float64 (math.Floor
    ((Of (.int64 (floatNumber.ShiftDecimal f digit).GetInt)).ShiftDecimal
      (int64.mul digit (int64.lit (-1)))).GetFloat))

/-- Go `Number.RoundDown` called with no argument. -/
def Number.RoundDown.noDigits : Number → Number
  | .ofInt i => intNumber.RoundDown i []
  | .ofFloat f => floatNumber.RoundDown.noDigits f

/-- Go `floatNumber.RoundDown`. -/
def floatNumber.RoundDown (f : floatNumber) (digits : List uint) : Number :=
  match digits with
  | d :: _ =>
    let offDigit := d.toInt
    (Number.RoundDown.noDigits (floatNumber.ShiftDecimal f offDigit)).ShiftDecimal
      (int64.mul offDigit (int64.lit (-1)))
  | [] => floatNumber.RoundDown.noDigits f

/-- Go `Number.Round`. -/
def Number.Round : Number → List uint → Number
  | .ofInt i, digits => intNumber.Round i digits
  | .ofFloat f, digits => floatNumber.Round f digits

/-- Go `Number.RoundUp`. -/
def Number.RoundUp : Number → List uint → Number
  | .ofInt i, digits => intNumber.RoundUp i digits
  | .ofFloat f, digits => floatNumber.RoundUp f digits

/-- Go `Number.RoundDown`. -/
def Number.RoundDown : Number → List uint → Number
  | .ofInt i, digits => intNumber.RoundDown i digits
  | .ofFloat f, digits => floatNumber.RoundDown f digits

/-! ## Exact values -/

/-- The exact value of a finite `float64` as a rational; 0 for NaN and the
infinities, which have none. -/
def float64.toRat : float64 → ℚ
  | .fin s m => (float64.signedUnits s m.val : ℚ) / (unitScale : ℚ)
  | _ => 0

/-- The value is finite: neither NaN nor an infinity. -/
def float64.isFinite : float64 → Bool
  | .fin _ _ => true
  | _ => false

/-! ## Notions the statements below use -/

/-- The operand is a zero: an integer 0 of any width, or a float `+0.0` or
`-0.0`, wrapped or not.  An operand of an unsupported type is not a zero. -/
def GoAny.isZeroValue : GoAny → Bool
  | .int8 v => decide (v.val = 0)
  | .int16 v => decide (v.val = 0)
  | .int v => decide (v.val = 0)
  | .int32 v => decide (v.val = 0)
  | .int64 v => decide (v.val = 0)
  | .float32 (.fin _ m) => decide (m.val = 0)
  | .float32 _ => false
  | .float64 (.fin _ m) => decide (m.val = 0)
  | .float64 _ => false
  | .intNumber v => decide (v.val = 0)
  | .floatNumber (.fin _ m) => decide (m.val = 0)
  | .floatNumber _ => false
  | .other => false

/-- The value is integer-backed. -/
def Number.isInt : Number → Bool
  | .ofInt _ => true
  | .ofFloat _ => false

/-- The value is float-backed. -/
def Number.isFloat : Number → Bool
  | .ofInt _ => false
  | .ofFloat _ => true

/-- The promotion rule in the words of the specification: if either operand is
float-backed, compute in floating point (the integer one promoted to float)
and return a float-backed value; else compute in integer arithmetic, reduced
to 64 bits, and return an integer-backed value. -/
def promotedOp (intOp : Int → Int → Int) (floatOp : float64 → float64 → float64)
    (a b : Number) : Number :=
  match a, b with
  | .ofInt i, .ofInt j => .ofInt (int64.wrap (intOp i.val j.val))
  | x, y => .ofFloat (floatOp x.GetFloat y.GetFloat)

/-- The `float64` constant `-0.0` (written `math.Copysign(0, -1)` in Go). -/
def float64.negZero : float64 := .fin true ⟨0, by decide⟩

/-- The `float64` constant `1.0`. -/
def float64.one : float64 := .fin false ⟨0x3FF0000000000000, by decide⟩

/-- The `float64` constant `1.5`. -/
def float64.onePointFive : float64 := .fin false ⟨0x3FF8000000000000, by decide⟩

/-- The `float64` constant `2.0`. -/
def float64.two : float64 := .fin false ⟨0x4000000000000000, by decide⟩

/-- The `float64` constant `9007199254740992.0`, that is `2^53`. -/
def float64.twoPow53 : float64 := .fin false ⟨0x4340000000000000, by decide⟩

/-- The value `x` as `Max` and `Min` hand it to `compare` when the other
operand is `other`: unchanged when both are integer-backed or `x` is
float-backed, converted to float when `x` is integer-backed and `other` is
float-backed. -/
def Number.promotedAgainst (x other : Number) : Number :=
  match x, other with
  | .ofInt i, .ofInt _ => .ofInt i
  | y, _ => .ofFloat y.GetFloat

/-- The `float64` constant `2.5`. -/
def float64.twoPointFive : float64 := .fin false ⟨0x4004000000000000, by decide⟩

/-- The `float64` constant `0.5`. -/
def float64.half : float64 := .fin false ⟨0x3FE0000000000000, by decide⟩

/-- The `float64` nearest to `0.1`. -/
def float64.tenth : float64 := .fin false ⟨0x3FB999999999999A, by decide⟩

/-- The `float64` constant `2^-10`, that is `0.0009765625`. -/
def float64.twoPowNeg10 : float64 := .fin false ⟨0x3F50000000000000, by decide⟩

/-- The `float64` constant `0.75`. -/
def float64.threeQuarters : float64 := .fin false ⟨0x3FE8000000000000, by decide⟩

/-- The `float64` constant `100`, which is `math.Pow10(2)`. -/
def float64.hundred : float64 := .fin false ⟨0x4059000000000000, by decide⟩

/-- The `float64` nearest to `0.01`, which is `math.Pow10(-2)`. -/
def float64.hundredth : float64 := .fin false ⟨0x3F847AE147AE147B, by decide⟩

/-- The `float64` nearest to 3.01, which lies below 3.01. -/
def float64.threePointZeroOne : float64 := .fin false ⟨0x4008147AE147AE14, by decide⟩

theorem bitLenAux_bounds : ∀ (fuel n : Nat), n ≤ fuel →
    n < 2 ^ bitLenAux fuel n ∧ (n ≠ 0 → 2 ^ (bitLenAux fuel n - 1) ≤ n)
  | 0, n, h => by
    have : n = 0 := by omega
    subst this
    simp [bitLenAux]
  | fuel + 1, n, h => by
    unfold bitLenAux
    by_cases hn : n = 0
    · simp [hn]
    · rw [if_neg hn]
      obtain ⟨h1, h2⟩ := bitLenAux_bounds fuel (n / 2) (by omega)
      refine ⟨?_, fun _ => ?_⟩
      · rw [pow_succ]; omega
      · rw [Nat.add_sub_cancel]
        by_cases h0 : n / 2 = 0
        · have hb : bitLenAux fuel (n / 2) = 0 := by
            rw [h0]; cases fuel <;> simp [bitLenAux]
          rw [hb]; simp; omega
        · have h3 := h2 h0
          have h4 : 0 < bitLenAux fuel (n / 2) := by
            rcases Nat.eq_zero_or_pos (bitLenAux fuel (n / 2)) with hz | hz
            · rw [hz] at h1; simp at h1; omega
            · exact hz
          have h5 : bitLenAux fuel (n / 2) = (bitLenAux fuel (n / 2) - 1) + 1 := by omega
          rw [h5, pow_succ]; omega

theorem bitLen_lt (n : Nat) : n < 2 ^ bitLen n := (bitLenAux_bounds n n le_rfl).1

theorem bitLen_le (n : Nat) (hn : n ≠ 0) : 2 ^ (bitLen n - 1) ≤ n :=
  (bitLenAux_bounds n n le_rfl).2 hn

theorem bitLen_eq_of_bounds (n b : Nat) (h1 : 2 ^ b ≤ n) (h2 : n < 2 ^ (b + 1)) :
    bitLen n = b + 1 := by
  have hn : n ≠ 0 := by
    have := Nat.pos_pow_of_pos b (show 0 < 2 by norm_num); omega
  have h3 := bitLen_lt n
  have h4 := bitLen_le n hn
  have h5 : b < bitLen n := by
    by_contra hc
    have : 2 ^ bitLen n ≤ 2 ^ b := Nat.pow_le_pow_right (by norm_num) (by omega)
    omega
  have h6 : bitLen n - 1 < b + 1 := by
    by_contra hc
    have : 2 ^ (b + 1) ≤ 2 ^ (bitLen n - 1) := Nat.pow_le_pow_right (by norm_num) (by omega)
    omega
  omega

theorem bitLen_le_of_lt (n b : Nat) (h : n < 2 ^ b) : bitLen n ≤ b := by
  by_cases hn : n = 0
  · subst hn; simp [bitLen, bitLenAux]
  · have h4 := bitLen_le n hn
    by_contra hc
    have : 2 ^ b ≤ 2 ^ (bitLen n - 1) := Nat.pow_le_pow_right (by norm_num) (by omega)
    omega

theorem roundHalfEven_exact (m D : Nat) (hD : 0 < D) : roundHalfEven (m * D) D = m := by
  unfold roundHalfEven
  simp only [Nat.mul_mod_left, Nat.mul_div_cancel _ hD]
  rw [if_neg]
  omega

theorem units_of_small (m : Nat) (h : m < 2 ^ 53) : float64.units m = m := by
  unfold float64.units
  have h53 : (2:Nat) ^ 53 = 2 * 2 ^ 52 := by norm_num
  by_cases h0 : m / 2 ^ 52 = 0
  · rw [if_pos h0]
  · rw [if_neg h0]
    have h1 : m / 2 ^ 52 = 1 := by
      have : m / 2 ^ 52 < 2 := by
        apply Nat.div_lt_of_lt_mul; omega
      omega
    have h2 := Nat.div_add_mod m (2 ^ 52)
    rw [h1] at h2 ⊢
    simp only [Nat.sub_self, pow_zero, mul_one] at h2 ⊢
    omega

theorem roundMag_units (m c : Nat) (hc : 0 < c) : roundMag (float64.units m * c) c = m := by
  unfold roundMag
  simp only [Nat.mul_div_cancel _ hc]
  by_cases hs : m < 2 ^ 53
  · rw [units_of_small m hs]
    have hk : bitLen m - 53 = 0 := by
      have := bitLen_le_of_lt m 53 hs; omega
    rw [hk]
    simp only [pow_zero, mul_one, zero_mul, zero_add]
    exact roundHalfEven_exact m c hc
  · have hE : 2 ≤ m / 2 ^ 52 := by
      apply (Nat.le_div_iff_mul_le (by norm_num)).2
      have h53 : (2:Nat) ^ 53 = 2 * 2 ^ 52 := by norm_num
      omega
    have hdm := Nat.div_add_mod m (2 ^ 52)
    have hf : m % 2 ^ 52 < 2 ^ 52 := Nat.mod_lt _ (by norm_num)
    generalize hEe : m / 2 ^ 52 = E at hE hdm
    generalize hfe : m % 2 ^ 52 = f at hf hdm
    have hu : float64.units m = (2 ^ 52 + f) * 2 ^ (E - 1) := by
      unfold float64.units
      rw [hEe, hfe, if_neg (by omega)]
    rw [hu]
    have hpos : 0 < 2 ^ (E - 1) := Nat.pos_pow_of_pos _ (by norm_num)
    have hb : bitLen ((2 ^ 52 + f) * 2 ^ (E - 1)) = (52 + (E - 1)) + 1 := by
      apply bitLen_eq_of_bounds
      · rw [pow_add]; exact Nat.mul_le_mul_right _ (by omega)
      · rw [show 52 + (E - 1) + 1 = 53 + (E - 1) by omega, pow_add]
        apply Nat.mul_lt_mul_of_pos_right _ hpos
        have h53 : (2:Nat) ^ 53 = 2 * 2 ^ 52 := by norm_num
        omega
    rw [hb, show 52 + (E - 1) + 1 - 53 = E - 1 by omega]
    rw [show (2 ^ 52 + f) * 2 ^ (E - 1) * c = (2 ^ 52 + f) * (c * 2 ^ (E - 1)) by ring]
    rw [roundHalfEven_exact _ _ (Nat.mul_pos hc hpos)]
    have : (E - 1) * 2 ^ 52 + 2 ^ 52 = 2 ^ 52 * E := by
      have hE1 : E = (E - 1) + 1 := by omega
      conv_rhs => rw [hE1]
      ring
    omega

theorem round_units (s : Bool) (m : Fin finiteMags64) (c : Nat) (hc : 0 < c) :
    float64.round s (float64.units m.val * c) c = .fin s m := by
  unfold float64.round
  have h := roundMag_units m.val c hc
  rw [dif_pos (by rw [h]; exact m.isLt)]
  congr 1
  exact Fin.ext h

/-! ## The binary64 model on known values

Each line is an IEEE-754 fact with the operands and the result written as
bit patterns, among them the expectations of the package's own tests. -/

/-- Conversions: `float64(2)`, `float64(-1)`, `2^53 + 1` rounded to even,
`2^53 + 3` rounded to even, the largest `int64` rounded up to `2^63`, and the
`float32` nearest to 0.1 widened. -/
theorem binary64_conversions :
    float64.ofInt64 (int64.lit 2) = float64.two ∧
    float64.ofInt64 (int64.lit (-1)) = .fin true ⟨0x3FF0000000000000, by decide⟩ ∧
    float64.ofInt64 (int64.lit 9007199254740993) = float64.twoPow53 ∧
    float64.ofInt64 (int64.lit 9007199254740995)
      = .fin false ⟨0x4340000000000002, by decide⟩ ∧
    float64.ofInt64 (int64.lit 9223372036854775807)
      = .fin false ⟨0x43E0000000000000, by decide⟩ ∧
    float64.ofInt64 int64.minValue = .fin true ⟨0x43E0000000000000, by decide⟩ ∧
    float32.toFloat64 (.fin false ⟨0x3DCCCCCD, by decide⟩)
      = .fin false ⟨0x3FB99999A0000000, by decide⟩ := by
  decide!

/-- Arithmetic: `0.1 + 0.2`, `1 + 1.1 = 2.1`, `1 - 2.0 = -1`, `0.1 * 3`,
`1 / 2.0 = 0.5`, `1 / 3`, `8 / 2 = 4`, `x - x = +0`, `-0 + -0 = -0`, overflow to
infinity, a tie on the smallest subnormal rounded to even, `inf - inf` and
`0 * inf`. -/
theorem binary64_arithmetic :
    float64.add (.fin false ⟨0x3FB999999999999A, by decide⟩)
        (.fin false ⟨0x3FC999999999999A, by decide⟩)
      = .fin false ⟨0x3FD3333333333334, by decide⟩ ∧
    float64.add (float64.ofInt64 (int64.lit 1)) (.fin false ⟨0x3FF199999999999A, by decide⟩)
      = .fin false ⟨0x4000CCCCCCCCCCCD, by decide⟩ ∧
    float64.sub (float64.ofInt64 (int64.lit 1)) float64.two
      = .fin true ⟨0x3FF0000000000000, by decide⟩ ∧
    float64.mul (.fin false ⟨0x3FB999999999999A, by decide⟩) (float64.ofInt64 (int64.lit 3))
      = .fin false ⟨0x3FD3333333333334, by decide⟩ ∧
    float64.div (float64.ofInt64 (int64.lit 1)) float64.two
      = .fin false ⟨0x3FE0000000000000, by decide⟩ ∧
    float64.div (float64.ofInt64 (int64.lit 1)) (float64.ofInt64 (int64.lit 3))
      = .fin false ⟨0x3FD5555555555555, by decide⟩ ∧
    float64.div (float64.ofInt64 (int64.lit 8)) (float64.ofInt64 (int64.lit 2))
      = .fin false ⟨0x4010000000000000, by decide⟩ ∧
    float64.sub float64.two float64.two = float64.zero ∧
    float64.add float64.negZero float64.negZero = float64.negZero ∧
    float64.mul (.fin false ⟨0x7FEFFFFFFFFFFFFF, by decide⟩) float64.two = .inf false ∧
    float64.div (.fin false ⟨1, by decide⟩) float64.two = float64.zero ∧
    float64.div (.fin false ⟨3, by decide⟩) float64.two = .fin false ⟨2, by decide⟩ ∧
    float64.sub (.inf false) (.inf false) = .nan ∧
    float64.mul float64.zero (.inf true) = .nan := by
  decide!

/-- Comparisons: `-0 == +0`, NaN is neither equal to, less than nor greater
than itself, `2.5 > 1`, `-inf < 1 < +inf`. -/
theorem binary64_comparisons :
    float64.eq float64.negZero float64.zero = true ∧
    float64.eq .nan .nan = false ∧ float64.lt .nan .nan = false ∧
    float64.gt .nan .nan = false ∧
    float64.gt (.fin false ⟨0x4004000000000000, by decide⟩) float64.one = true ∧
    float64.lt (.inf true) float64.one = true ∧ float64.lt float64.one (.inf false) = true ∧
    float64.lt float64.one float64.onePointFive = true ∧
    float64.lt float64.negZero float64.zero = false := by
  decide!

/-! ## Lemmas on the comparisons and on zero -/

theorem units_eq_zero (m : Nat) : float64.units m = 0 ↔ m = 0 := by
  unfold float64.units
  by_cases h0 : m / 2 ^ 52 = 0
  · rw [if_pos h0]
  · rw [if_neg h0]
    constructor
    · intro h
      have h1 : 0 < (2 ^ 52 + m % 2 ^ 52) * 2 ^ (m / 2 ^ 52 - 1) :=
        Nat.mul_pos (by positivity) (by positivity)
      omega
    · intro h
      subst h
      simp at h0

theorem signedUnits_eq_zero (s : Bool) (m : Nat) : float64.signedUnits s m = 0 ↔ m = 0 := by
  unfold float64.signedUnits
  rw [← units_eq_zero]
  cases s <;> simp

theorem float64_eq_zero (f : float64) :
    float64.eq f float64.zero = true ↔ ∃ s, f = .fin s ⟨0, by decide⟩ := by
  cases f with
  | nan => simp [float64.eq, float64.zero]
  | inf s => simp [float64.eq, float64.zero]
  | fin s m =>
    have hz : float64.signedUnits false 0 = 0 := (signedUnits_eq_zero false 0).2 rfl
    simp only [float64.eq, float64.zero, hz, decide_eq_true_eq, signedUnits_eq_zero]
    constructor
    · intro h
      exact ⟨s, by congr 1; exact Fin.ext h⟩
    · rintro ⟨t, ht⟩
      injection ht with _ h2
      rw [h2]

theorem float64_eq_comm (f g : float64) : float64.eq f g = float64.eq g f := by
  cases f <;> cases g <;> simp [float64.eq, eq_comm, Bool.beq_comm]

theorem float64_eq_self (f : float64) (h : f ≠ .nan) : float64.eq f f = true := by
  cases f <;> simp_all [float64.eq]

theorem float64_gt_of_eq (f g : float64) (h : float64.eq f g = true) :
    float64.gt f g = false := by
  cases f <;> cases g <;> simp_all [float64.eq, float64.gt, float64.lt]

theorem roundHalfEven_one (n : Nat) : roundHalfEven n 1 = n := by
  have := roundHalfEven_exact n 1 (by norm_num)
  rwa [mul_one] at this

theorem roundMag_one_eq_zero (n : Nat) (h : roundMag n 1 = 0) : n = 0 := by
  unfold roundMag at h
  simp only [Nat.div_one, one_mul] at h
  have hk : bitLen n - 53 = 0 := by
    by_contra hc
    have : 0 < (bitLen n - 53) * 2 ^ 52 := Nat.mul_pos (by omega) (by positivity)
    omega
  rw [hk] at h
  simpa [roundHalfEven_one] using h

theorem round_one_isZero (s : Bool) (n : Nat) :
    float64.eq (float64.round s n 1) float64.zero = true ↔ n = 0 := by
  rw [float64_eq_zero]
  unfold float64.round
  constructor
  · rintro ⟨t, ht⟩
    by_cases hlt : roundMag n 1 < finiteMags64
    · rw [dif_pos hlt] at ht
      injection ht with _ h2
      exact roundMag_one_eq_zero n (by simpa using congrArg Fin.val h2)
    · rw [dif_neg hlt] at ht
      cases ht
  · intro h
    subst h
    have h0 : roundMag 0 1 = 0 := by decide
    refine ⟨s, ?_⟩
    rw [dif_pos (by rw [h0]; decide)]
    congr 1

theorem units32_eq_zero (m : Nat) : float32.units m = 0 ↔ m = 0 := by
  unfold float32.units
  by_cases h0 : m / 2 ^ 23 = 0
  · rw [if_pos h0]
  · rw [if_neg h0]
    constructor
    · intro h
      have h1 : 0 < (2 ^ 23 + m % 2 ^ 23) * 2 ^ (m / 2 ^ 23 - 1) :=
        Nat.mul_pos (by positivity) (by positivity)
      omega
    · intro h
      subst h
      simp at h0

theorem int64_lit_zero_val : (int64.lit 0).val = 0 := by decide

theorem intNumber_IsZero_iff (i : intNumber) : intNumber.IsZero i = decide (i.val = 0) := by
  unfold intNumber.IsZero
  congr 1
  rw [int64.ext_iff, int64_lit_zero_val]

/-- On every operand of a supported type, the zero test the code runs on the
coerced operand agrees with `GoAny.isZeroValue`. -/
theorem Of_IsZero (b : GoAny) (hb : b ≠ GoAny.other) :
    (Of b).IsZero = b.isZeroValue := by
  cases b with
  | int8 v => simp [Of, Number.IsZero, intNumber_IsZero_iff, GoAny.isZeroValue, int8.toInt64]
  | int16 v => simp [Of, Number.IsZero, intNumber_IsZero_iff, GoAny.isZeroValue, int16.toInt64]
  | int v => simp [Of, Number.IsZero, intNumber_IsZero_iff, GoAny.isZeroValue]
  | int32 v => simp [Of, Number.IsZero, intNumber_IsZero_iff, GoAny.isZeroValue, int32.toInt64]
  | int64 v => simp [Of, Number.IsZero, intNumber_IsZero_iff, GoAny.isZeroValue]
  | intNumber v => simp [Of, Number.IsZero, intNumber_IsZero_iff, GoAny.isZeroValue]
  | other => exact absurd rfl hb
  | float32 v =>
    cases v with
    | nan => simp [Of, Number.IsZero, floatNumber.IsZero, GoAny.isZeroValue, float32.toFloat64, float64.eq]
    | inf s => simp [Of, Number.IsZero, floatNumber.IsZero, GoAny.isZeroValue, float32.toFloat64, float64.eq, float64.zero]
    | fin s m =>
      simp only [Of, Number.IsZero, floatNumber.IsZero, GoAny.isZeroValue, float32.toFloat64]
      rw [Bool.eq_iff_iff, round_one_isZero]
      have hr : float32.unitRatio ≠ 0 := by unfold float32.unitRatio; positivity
      simp [units32_eq_zero, hr]
  | float64 v =>
    cases v with
    | nan => simp [Of, Number.IsZero, floatNumber.IsZero, GoAny.isZeroValue, float64.eq]
    | inf s => simp [Of, Number.IsZero, floatNumber.IsZero, GoAny.isZeroValue, float64.eq, float64.zero]
    | fin s m =>
      simp only [Of, Number.IsZero, floatNumber.IsZero, GoAny.isZeroValue]
      rw [Bool.eq_iff_iff, float64_eq_zero]
      simp only [decide_eq_true_eq]
      constructor
      · rintro ⟨t, ht⟩
        injection ht with _ h2
        rw [h2]
      · intro h
        exact ⟨s, by congr 1; exact Fin.ext h⟩
  | floatNumber v =>
    cases v with
    | nan => simp [Of, Number.IsZero, floatNumber.IsZero, GoAny.isZeroValue, float64.eq]
    | inf s => simp [Of, Number.IsZero, floatNumber.IsZero, GoAny.isZeroValue, float64.eq, float64.zero]
    | fin s m =>
      simp only [Of, Number.IsZero, floatNumber.IsZero, GoAny.isZeroValue]
      rw [Bool.eq_iff_iff, float64_eq_zero]
      simp only [decide_eq_true_eq]
      constructor
      · rintro ⟨t, ht⟩
        injection ht with _ h2
        rw [h2]
      · intro h
        exact ⟨s, by congr 1; exact Fin.ext h⟩

/-! ## Lemmas on adding zero and multiplying by one -/

theorem ofInt64_zero : float64.ofInt64 (int64.lit 0) = float64.zero := by decide!

theorem ofInt64_one : float64.ofInt64 (int64.lit 1) = float64.one := by decide!

theorem units_one : float64.units 0x3FF0000000000000 = unitScale := by decide!

theorem unitScale_pos : 0 < unitScale := by unfold unitScale; positivity

theorem float64_mul_one (f : float64) : float64.mul f float64.one = f := by
  cases f with
  | nan => rfl
  | inf s => simp [float64.mul, float64.one]
  | fin s m =>
    simp only [float64.mul, float64.one, units_one, Bool.xor_false]
    exact round_units s m unitScale unitScale_pos

theorem float64_add_zero (f : float64) (h : f ≠ float64.negZero) :
    float64.add f float64.zero = f := by
  cases f with
  | nan => rfl
  | inf s => rfl
  | fin s m =>
    have hz : float64.signedUnits false 0 = 0 := (signedUnits_eq_zero false 0).2 rfl
    simp only [float64.add, float64.zero, hz, add_zero, Bool.and_false]
    by_cases hm : m.val = 0
    · rw [if_pos ((signedUnits_eq_zero s m.val).2 hm)]
      have hm0 : m = ⟨0, by decide⟩ := Fin.ext hm
      subst hm0
      cases s
      · rfl
      · exact absurd rfl h
    · have hu : float64.units m.val ≠ 0 := fun hc => hm ((units_eq_zero _).1 hc)
      rw [if_neg (fun hc => hm ((signedUnits_eq_zero s m.val).1 hc))]
      have key := round_units s m 1 Nat.one_pos
      rw [mul_one] at key
      cases s
      · have h1 : decide (float64.signedUnits false m.val < 0) = false := by
          simp [float64.signedUnits]
        have h2 : (float64.signedUnits false m.val).natAbs = float64.units m.val := by
          simp [float64.signedUnits]
        rw [h1, h2]; exact key
      · have h1 : decide (float64.signedUnits true m.val < 0) = true := by
          simp only [float64.signedUnits, if_true, decide_eq_true_eq]
          omega
        have h2 : (float64.signedUnits true m.val).natAbs = float64.units m.val := by
          simp [float64.signedUnits]
        rw [h1, h2]; exact key

theorem int64_wrap_val (i : int64) : int64.wrap i.val = i := by
  have h1 := i.lo
  have h2 := i.hi
  apply int64.ext
  unfold int64.wrap
  simp only
  omega

theorem int64_lit_one_val : (int64.lit 1).val = 1 := by decide

/-! ## Division -/

/-- C1 fails as stated: an operand of an unsupported type is not a zero, yet
`a.Divide` of it returns `DivideByZeroError` (here for the integer 7), because
`Of` turns such an operand into the integer 0 before the zero check. -/
theorem divide_error_counterexample :
    ((Number.ofInt (int64.lit 7)).Divide GoAny.other).2 = some GoError.DivideByZeroError ∧
    GoAny.other.isZeroValue = false ∧
    ¬ (((Number.ofInt (int64.lit 7)).Divide GoAny.other).2 = some GoError.DivideByZeroError ↔
        GoAny.other.isZeroValue = true) := by
  have h : ((Number.ofInt (int64.lit 7)).Divide GoAny.other).2
      = some GoError.DivideByZeroError := by decide
  have h2 : GoAny.other.isZeroValue = false := rfl
  refine ⟨h, h2, fun hc => ?_⟩
  have := hc.1 h
  rw [h2] at this
  cases this

/-- C1, amended: for every dividend `a` and every divisor `b`, `a.Divide(b)`
returns `DivideByZeroError` exactly when `b` is zero (an integer 0, a float
`+0.0` or a float `-0.0`) or of an unsupported type, which is exactly when the
coerced divisor `Of(b)` is zero; and then the value returned with it is `a`
itself, same variant and same value. -/
theorem divide_error_iff_zero_divisor (a : Number) (b : GoAny) :
    ((a.Divide b).2 = some GoError.DivideByZeroError ↔
      (b.isZeroValue = true ∨ b = GoAny.other)) ∧
    ((a.Divide b).2 = some GoError.DivideByZeroError ↔ (Of b).IsZero = true) ∧
    ((a.Divide b).2 = some GoError.DivideByZeroError → (a.Divide b).1 = a) := by
  have hz : (Of b).IsZero = true ↔ (b.isZeroValue = true ∨ b = GoAny.other) := by
    by_cases hb : b = GoAny.other
    · subst hb
      exact ⟨fun _ => Or.inr rfl, fun _ => by decide⟩
    · rw [Of_IsZero b hb]
      exact ⟨fun h => Or.inl h, fun h => h.resolve_right hb⟩
  have key : ((a.Divide b).2 = some GoError.DivideByZeroError ↔ (Of b).IsZero = true) ∧
      ((a.Divide b).2 = some GoError.DivideByZeroError → (a.Divide b).1 = a) := by
    cases a with
    | ofInt i =>
      simp only [Number.Divide, intNumber.Divide]
      cases hv : (Of b).IsZero
      · cases Of b <;> simp
      · simp
    | ofFloat f =>
      simp only [Number.Divide, floatNumber.Divide]
      cases hv : (Of b).IsZero
      · cases Of b <;> simp
      · simp
  exact ⟨key.1.trans hz, key.1, key.2⟩

/-- C1, amended, at the dividend integer 1 and the divisor float `-0.0`: the
error is returned, with the integer 1. -/
theorem divide_error_iff_zero_divisor_witness :
    ((Number.ofInt (int64.lit 1)).Divide (GoAny.float64 float64.negZero)).2
        = some GoError.DivideByZeroError ∧
    ((Number.ofInt (int64.lit 1)).Divide (GoAny.float64 float64.negZero)).1
        = Number.ofInt (int64.lit 1) :=
  ⟨(divide_error_iff_zero_divisor _ _).1.2 (Or.inl (by decide)),
   (divide_error_iff_zero_divisor _ _).2.2
     ((divide_error_iff_zero_divisor _ _).1.2 (Or.inl (by decide)))⟩

/-- C2: for every dividend `a` and every non-zero divisor `b` of a supported
type, `a.Divide(b)` returns no error and the float-backed value
`float(a) / float(b)`; dividing the integer 3 by the integer 2 gives the float
1.5, not a truncated quotient. -/
theorem divide_nonzero_is_float_quotient (a : Number) (b : GoAny)
    (hb : b ≠ GoAny.other) (hnz : b.isZeroValue = false) :
    a.Divide b = (Number.ofFloat (float64.div a.GetFloat (Of b).GetFloat), none) ∧
    (Number.ofInt (int64.lit 3)).Divide (GoAny.int (int64.lit 2))
      = (Number.ofFloat float64.onePointFive, none) := by
  have hz := Of_IsZero b hb
  rw [hnz] at hz
  refine ⟨?_, by decide!⟩
  cases a with
  | ofInt i =>
    simp only [Number.Divide, intNumber.Divide, hz]
    cases Of b <;> simp [Number.GetFloat, intNumber.GetFloat, floatNumber.GetFloat]
  | ofFloat f =>
    simp only [Number.Divide, floatNumber.Divide, hz]
    cases Of b <;> simp [Number.GetFloat, intNumber.GetFloat, floatNumber.GetFloat]

/-- C2 at the dividend float 1.5 and the divisor integer 2: the quotient is
the float 0.75. -/
theorem divide_nonzero_is_float_quotient_witness :
    (Number.ofFloat float64.onePointFive).Divide (GoAny.int (int64.lit 2))
      = (Number.ofFloat (.fin false ⟨0x3FE8000000000000, by decide⟩), none) :=
  ((divide_nonzero_is_float_quotient (Number.ofFloat float64.onePointFive)
      (GoAny.int (int64.lit 2)) (by simp) (by decide)).1).trans (by decide!)

/-! ## Addition, subtraction and multiplication -/

/-- C3: `Add`, `Minus` and `Multiply` follow the promotion rule on every pair
of operands (the second one as `Of` coerces it): the result is integer-backed
exactly when both operands are, and is then the sum, difference or product
reduced to 64 bits in two's complement; if either operand is float-backed the
result is float-backed, the floating-point result on the operands with the
integer one promoted to float. -/
theorem arithmetic_follows_promotion (a : Number) (b : GoAny) :
    a.Add b = promotedOp (fun x y => x + y) float64.add a (Of b) ∧
    a.Minus b = promotedOp (fun x y => x - y) float64.sub a (Of b) ∧
    a.Multiply b = promotedOp (fun x y => x * y) float64.mul a (Of b) ∧
    (a.Add b).isInt = (a.isInt && (Of b).isInt) ∧
    (a.Minus b).isInt = (a.isInt && (Of b).isInt) ∧
    (a.Multiply b).isInt = (a.isInt && (Of b).isInt) ∧
    (a.Add b).isFloat = (a.isFloat || (Of b).isFloat) ∧
    (a.Minus b).isFloat = (a.isFloat || (Of b).isFloat) ∧
    (a.Multiply b).isFloat = (a.isFloat || (Of b).isFloat) ∧
    (∀ x : Int, (int64.wrap x).val % 18446744073709551616 = x % 18446744073709551616) := by
  refine ⟨?_, ?_, ?_, ?_, ?_, ?_, ?_, ?_, ?_, ?_⟩
  case refine_10 => intro x; unfold int64.wrap; simp only; omega
  all_goals
    cases a <;> cases hb : Of b <;>
    simp [Number.Add, Number.Minus, Number.Multiply, intNumber.Add, intNumber.Minus,
      intNumber.Multiply, floatNumber.Add, floatNumber.Minus, floatNumber.Multiply,
      promotedOp, hb, Number.isInt, Number.isFloat, Number.GetFloat, intNumber.GetFloat,
      floatNumber.GetFloat, int64.add, int64.sub, int64.mul]

/-- C4 fails as stated: for the float NaN, `a.Add(0)` and `a.Multiply(1)` do
not compare equal to `a`, and for the float `-0.0`, `a.Add(0)` is `+0.0`, a
different value from `a`. -/
theorem add_zero_multiply_one_counterexample :
    ((Number.ofFloat float64.nan).Add (GoAny.int (int64.lit 0))).IsEqualTo
      (Number.ofFloat float64.nan).toAny = false ∧
    ((Number.ofFloat float64.nan).Multiply (GoAny.int (int64.lit 1))).IsEqualTo
      (Number.ofFloat float64.nan).toAny = false ∧
    (Number.ofFloat float64.negZero).Add (GoAny.int (int64.lit 0))
      ≠ Number.ofFloat float64.negZero := by
  decide!

/-- C4, amended: for every value `a` other than the float NaN, `a.Add(0)` and
`a.Multiply(1)` compare equal to `a` under `IsEqualTo` (0 and 1 integer
operands); `a.Multiply(1)` is `a` itself, and `a.Add(0)` is `a` itself unless
`a` is the float `-0.0`, which `Add(0)` turns into `+0.0`. -/
theorem add_zero_multiply_one (a : Number) (ha : a ≠ Number.ofFloat float64.nan) :
    (a.Add (GoAny.int (int64.lit 0))).IsEqualTo a.toAny = true ∧
    (a.Multiply (GoAny.int (int64.lit 1))).IsEqualTo a.toAny = true ∧
    a.Multiply (GoAny.int (int64.lit 1)) = a ∧
    (a ≠ Number.ofFloat float64.negZero → a.Add (GoAny.int (int64.lit 0)) = a) ∧
    (Number.ofFloat float64.negZero).Add (GoAny.int (int64.lit 0))
      = Number.ofFloat float64.zero := by
  have hself : a.IsEqualTo a.toAny = true := by
    cases a with
    | ofInt i => simp [Number.IsEqualTo, intNumber.IsEqualTo, Number.toAny, Of]
    | ofFloat f =>
      simp only [Number.IsEqualTo, floatNumber.IsEqualTo, Number.toAny, Of]
      exact float64_eq_self f (fun hc => ha (by rw [hc]))
  have hmul : a.Multiply (GoAny.int (int64.lit 1)) = a := by
    cases a with
    | ofInt i =>
      simp only [Number.Multiply, intNumber.Multiply, Of, int64.mul, int64_lit_one_val,
        mul_one, int64_wrap_val]
    | ofFloat f =>
      simp only [Number.Multiply, floatNumber.Multiply, Of, ofInt64_one, float64_mul_one]
  have hadd : a ≠ Number.ofFloat float64.negZero → a.Add (GoAny.int (int64.lit 0)) = a := by
    intro hnz
    cases a with
    | ofInt i =>
      simp only [Number.Add, intNumber.Add, Of, int64.add, int64_lit_zero_val,
        add_zero, int64_wrap_val]
    | ofFloat f =>
      simp only [Number.Add, floatNumber.Add, Of, ofInt64_zero]
      rw [float64_add_zero f (fun hc => hnz (by rw [hc]))]
  refine ⟨?_, ?_, hmul, hadd, by decide!⟩
  · by_cases hnz : a = Number.ofFloat float64.negZero
    · subst hnz; decide!
    · rw [hadd hnz]; exact hself
  · rw [hmul]; exact hself

/-- C4, amended, at the float 1.5. -/
theorem add_zero_multiply_one_witness :
    Number.ofFloat float64.onePointFive ≠ Number.ofFloat float64.nan ∧
    (Number.ofFloat float64.onePointFive).Multiply (GoAny.int (int64.lit 1))
      = Number.ofFloat float64.onePointFive :=
  ⟨by decide, (add_zero_multiply_one (Number.ofFloat float64.onePointFive) (by decide)).2.2.1⟩

/-- C5: for all integer-backed `a` and `b`, `a.Add(b)` equals `b.Add(a)` and
`a.Multiply(b)` equals `b.Multiply(a)`; the results are the sum and the product
reduced to 64 bits, so this covers the wrap-around. -/
theorem int_add_multiply_comm (i j : intNumber) :
    (Number.ofInt i).Add (Number.ofInt j).toAny = (Number.ofInt j).Add (Number.ofInt i).toAny ∧
    (Number.ofInt i).Multiply (Number.ofInt j).toAny
      = (Number.ofInt j).Multiply (Number.ofInt i).toAny ∧
    (Number.ofInt i).Add (Number.ofInt j).toAny = Number.ofInt (int64.wrap (i.val + j.val)) ∧
    (Number.ofInt i).Multiply (Number.ofInt j).toAny
      = Number.ofInt (int64.wrap (i.val * j.val)) := by
  simp only [Number.Add, Number.Multiply, intNumber.Add, intNumber.Multiply, Number.toAny, Of,
    int64.add, int64.mul, add_comm j.val, mul_comm j.val, and_self]

/-! ## Comparison -/

/-- C6 fails as stated: the float NaN does not compare equal to itself. -/
theorem isEqualTo_not_reflexive_at_nan :
    (Number.ofFloat float64.nan).IsEqualTo (Number.ofFloat float64.nan).toAny = false := by
  decide

/-- C6, amended: `IsEqualTo` is symmetric over all pairs of values, mixed
variants included, and `a.IsEqualTo(a)` is true exactly for the values `a`
other than the float NaN; the integer 2 and the float 2.0 are equal, either
way round. -/
theorem isEqualTo_symmetric_reflexive (a b : Number) :
    a.IsEqualTo b.toAny = b.IsEqualTo a.toAny ∧
    (a.IsEqualTo a.toAny = true ↔ a ≠ Number.ofFloat float64.nan) ∧
    (Number.ofInt (int64.lit 2)).IsEqualTo (Number.ofFloat float64.two).toAny = true ∧
    (Number.ofFloat float64.two).IsEqualTo (Number.ofInt (int64.lit 2)).toAny = true := by
  refine ⟨?_, ?_, by decide!, by decide!⟩
  · cases a <;> cases b <;>
      simp only [Number.IsEqualTo, intNumber.IsEqualTo, floatNumber.IsEqualTo, Number.toAny, Of]
    · simp [eq_comm]
    · exact float64_eq_comm _ _
    · exact float64_eq_comm _ _
    · exact float64_eq_comm _ _
  · cases a with
    | ofInt i => simp [Number.IsEqualTo, intNumber.IsEqualTo, Number.toAny, Of]
    | ofFloat f =>
      simp only [Number.IsEqualTo, floatNumber.IsEqualTo, Number.toAny, Of]
      constructor
      · intro h hc
        injection hc with hc
        subst hc
        simp [float64.eq] at h
      · intro h
        exact float64_eq_self f (fun hc => h (by rw [hc]))

/-- C7: for all integer-backed `a` and `b`, `a.Max(b)` is the integer-backed
larger of the two and `a.Min(b)` the integer-backed smaller: each is one of the
operands, the `Max` is at least both and the `Min` at most both. -/
theorem int_max_min (i j : intNumber) :
    (∃ r : intNumber, (Number.ofInt i).Max (Number.ofInt j).toAny = Number.ofInt r ∧
      (r = i ∨ r = j) ∧ i.val ≤ r.val ∧ j.val ≤ r.val ∧ r.val = max i.val j.val) ∧
    (∃ r : intNumber, (Number.ofInt i).Min (Number.ofInt j).toAny = Number.ofInt r ∧
      (r = i ∨ r = j) ∧ r.val ≤ i.val ∧ r.val ≤ j.val ∧ r.val = min i.val j.val) := by
  simp only [Number.Max, Number.Min, intNumber.Max, intNumber.Min, Number.toAny, Of, compare,
    Number.IsGreaterThan, intNumber.IsGreaterThan, if_true, Bool.false_eq_true, if_false,
    decide_eq_true_eq]
  by_cases h : j.val < i.val
  · rw [if_pos h, if_pos h]
    exact ⟨⟨i, rfl, Or.inl rfl, le_rfl, le_of_lt h, (max_eq_left (le_of_lt h)).symm⟩,
      ⟨j, rfl, Or.inr rfl, le_of_lt h, le_rfl, (min_eq_right (le_of_lt h)).symm⟩⟩
  · rw [if_neg h, if_neg h]
    have h2 : i.val ≤ j.val := not_lt.1 h
    exact ⟨⟨j, rfl, Or.inr rfl, h2, le_rfl, (max_eq_right h2).symm⟩,
      ⟨i, rfl, Or.inl rfl, le_rfl, h2, (min_eq_left h2).symm⟩⟩

/-- C8 fails as stated: the float 2.0 and the integer 2 compare equal, yet
`(2.0).Max(2)` is the float 2.0, not the integer-backed second argument, and
`(2).Min(2.0)` is the float 2.0, not the integer-backed first argument.  The
integer `2^53 + 1` and the float `2^53` compare equal as well, and the `Min` of
the integer with the float is the float `2^53`, which has the value of the
second argument, not of the first. -/
theorem max_min_tie_counterexample :
    (Number.ofFloat float64.two).IsEqualTo (Number.ofInt (int64.lit 2)).toAny = true ∧
    (Number.ofFloat float64.two).Max (Number.ofInt (int64.lit 2)).toAny
      ≠ Number.ofInt (int64.lit 2) ∧
    (Number.ofInt (int64.lit 2)).IsEqualTo (Number.ofFloat float64.two).toAny = true ∧
    (Number.ofInt (int64.lit 2)).Min (Number.ofFloat float64.two).toAny
      ≠ Number.ofInt (int64.lit 2) ∧
    (Number.ofInt (int64.lit 9007199254740993)).IsEqualTo
      (Number.ofFloat float64.twoPow53).toAny = true ∧
    (Number.ofInt (int64.lit 9007199254740993)).Min (Number.ofFloat float64.twoPow53).toAny
      = Number.ofFloat float64.twoPow53 := by
  decide!

/-- C8, amended: for every pair `a`, `b` that compare equal under `IsEqualTo`,
`a.Max(b)` returns the second argument `b` and `a.Min(b)` the first argument
`a`, each converted to float when it is integer-backed and the other operand is
float-backed; when `a` and `b` have the same variant, `a.Max(b)` is `b` itself
and `a.Min(b)` is `a` itself. -/
theorem max_min_tie (a b : Number) (h : a.IsEqualTo b.toAny = true) :
    a.Max b.toAny = b.promotedAgainst a ∧
    a.Min b.toAny = a.promotedAgainst b ∧
    (a.isInt = b.isInt → a.Max b.toAny = b ∧ a.Min b.toAny = a) := by
  cases a with
  | ofInt i =>
    cases b with
    | ofInt j =>
      simp only [Number.IsEqualTo, intNumber.IsEqualTo, Number.toAny, Of,
        decide_eq_true_eq] at h
      subst h
      simp [Number.Max, Number.Min, intNumber.Max, intNumber.Min, Number.toAny, Of, compare,
        Number.IsGreaterThan, intNumber.IsGreaterThan, Number.promotedAgainst]
    | ofFloat g =>
      simp only [Number.IsEqualTo, intNumber.IsEqualTo, Number.toAny, Of] at h
      have hg := float64_gt_of_eq _ _ h
      simp [Number.Max, Number.Min, intNumber.Max, intNumber.Min, Number.toAny, Of, compare,
        Number.IsGreaterThan, floatNumber.IsGreaterThan, Number.promotedAgainst, hg,
        Number.GetFloat, intNumber.GetFloat, floatNumber.GetFloat, Number.isInt]
  | ofFloat f =>
    cases b with
    | ofInt j =>
      simp only [Number.IsEqualTo, floatNumber.IsEqualTo, Number.toAny, Of] at h
      have hg := float64_gt_of_eq _ _ h
      simp [Number.Max, Number.Min, floatNumber.Max, floatNumber.Min, Number.toAny, Of, compare,
        Number.IsGreaterThan, floatNumber.IsGreaterThan, Number.promotedAgainst, hg,
        Number.GetFloat, intNumber.GetFloat, floatNumber.GetFloat, Number.isInt]
    | ofFloat g =>
      simp only [Number.IsEqualTo, floatNumber.IsEqualTo, Number.toAny, Of] at h
      have hg := float64_gt_of_eq _ _ h
      simp [Number.Max, Number.Min, floatNumber.Max, floatNumber.Min, Number.toAny, Of, compare,
        Number.IsGreaterThan, floatNumber.IsGreaterThan, Number.promotedAgainst, hg,
        Number.GetFloat, floatNumber.GetFloat]

/-- C8, amended, at the floats `-0.0` and `+0.0`, which compare equal: `Max`
returns the second, `Min` the first. -/
theorem max_min_tie_witness :
    (Number.ofFloat float64.negZero).IsEqualTo (Number.ofFloat float64.zero).toAny = true ∧
    (Number.ofFloat float64.negZero).Max (Number.ofFloat float64.zero).toAny
      = Number.ofFloat float64.zero ∧
    (Number.ofFloat float64.negZero).Min (Number.ofFloat float64.zero).toAny
      = Number.ofFloat float64.negZero :=
  ⟨by decide,
    (max_min_tie (Number.ofFloat float64.negZero) (Number.ofFloat float64.zero)
      (by decide)).2.2 rfl⟩

/-- C9: on the same operands `IsLessThanOrEqualTo` is the negation of
`IsGreaterThan` and `IsGreaterThanOrEqualTo` the negation of `IsLessThan`; so
for integer-backed `a` and `b`, `a.IsLessThanOrEqualTo(b)` holds exactly when
`a.IsLessThan(b)` or `a.IsEqualTo(b)` does, that is when `a <= b`, and
`a.IsGreaterThanOrEqualTo(b)` exactly when `a >= b`. -/
theorem le_ge_negate_gt_lt (a : Number) (x : GoAny) (i j : intNumber) :
    a.IsLessThanOrEqualTo x = !a.IsGreaterThan x ∧
    a.IsGreaterThanOrEqualTo x = !a.IsLessThan x ∧
    (Number.ofInt i).IsLessThanOrEqualTo (Number.ofInt j).toAny
      = ((Number.ofInt i).IsLessThan (Number.ofInt j).toAny ||
         (Number.ofInt i).IsEqualTo (Number.ofInt j).toAny) ∧
    ((Number.ofInt i).IsLessThanOrEqualTo (Number.ofInt j).toAny = true ↔ i.val ≤ j.val) ∧
    ((Number.ofInt i).IsGreaterThanOrEqualTo (Number.ofInt j).toAny = true ↔ j.val ≤ i.val) := by
  refine ⟨?_, ?_, ?_, ?_, ?_⟩
  · cases a <;> rfl
  · cases a <;> rfl
  · simp only [Number.IsLessThanOrEqualTo, intNumber.IsLessThanOrEqualTo, Number.IsLessThan,
      intNumber.IsLessThan, Number.IsEqualTo, intNumber.IsEqualTo, intNumber.IsGreaterThan,
      Number.toAny, Of, int64.ext_iff]
    rw [Bool.eq_iff_iff]
    simp only [Bool.not_eq_true', decide_eq_false_iff_not, Bool.or_eq_true, decide_eq_true_eq]
    omega
  · simp [Number.IsLessThanOrEqualTo, intNumber.IsLessThanOrEqualTo, intNumber.IsGreaterThan,
      Number.toAny, Of]
  · simp [Number.IsGreaterThanOrEqualTo, intNumber.IsGreaterThanOrEqualTo,
      intNumber.IsLessThan, Number.toAny, Of]

/-! ## Absolute value -/

/-- C10: for every integer-backed `i` other than the minimum 64-bit integer,
`i.Abs()` is the integer-backed value `|i|`, which is not negative, and the
`Abs` of -1 is 1; for the minimum `-2^63` the negation overflows and `Abs`
returns `-2^63` itself, still negative. -/
theorem int_abs (i : intNumber) (hi : i ≠ int64.minValue) :
    (∃ r : intNumber, (Number.ofInt i).Abs = Number.ofInt r ∧ r.val = |i.val| ∧ 0 ≤ r.val) ∧
    (Number.ofInt (int64.lit (-1))).Abs = Number.ofInt (int64.lit 1) ∧
    (Number.ofInt int64.minValue).Abs = Number.ofInt int64.minValue ∧
    int64.minValue.val = -(2 : Int) ^ 63 ∧ int64.minValue.val < 0 := by
  refine ⟨?_, by decide, by decide, by decide, by decide⟩
  have h1 := i.lo
  have h2 := i.hi
  have h3 : i.val ≠ -9223372036854775808 := by
    intro hc
    exact hi (int64.ext hc)
  simp only [Number.Abs, intNumber.Abs]
  by_cases hneg : i.val < 0
  · rw [if_pos hneg]
    refine ⟨int64.neg i, rfl, ?_, ?_⟩
    · rw [abs_of_neg hneg]
      unfold int64.neg int64.wrap
      simp only
      omega
    · unfold int64.neg int64.wrap
      simp only
      omega
  · rw [if_neg hneg]
    exact ⟨i, rfl, (abs_of_nonneg (not_lt.1 hneg)).symm, not_lt.1 hneg⟩

/-- C10 at the integer -5, whose `Abs` is 5. -/
theorem int_abs_witness :
    int64.lit (-5) ≠ int64.minValue ∧
    ∃ r : intNumber, (Number.ofInt (int64.lit (-5))).Abs = Number.ofInt r ∧
      r.val = |(int64.lit (-5)).val| ∧ 0 ≤ r.val :=
  ⟨by decide, (int_abs (int64.lit (-5)) (by decide)).1⟩

/-! ## Operands of an unsupported type, and coercion -/

theorem float64_add_negZero (f : float64) : float64.add f float64.negZero = f := by
  cases f with
  | nan => rfl
  | inf s => rfl
  | fin s m =>
    have hz : float64.signedUnits true 0 = 0 := (signedUnits_eq_zero true 0).2 rfl
    simp only [float64.add, float64.negZero, hz, add_zero, Bool.and_true]
    by_cases hm : m.val = 0
    · rw [if_pos ((signedUnits_eq_zero s m.val).2 hm)]
      congr 1
      exact (Fin.ext hm).symm
    · rw [if_neg (fun hc => hm ((signedUnits_eq_zero s m.val).1 hc))]
      have hu : float64.units m.val ≠ 0 := fun hc => hm ((units_eq_zero _).1 hc)
      have key := round_units s m 1 Nat.one_pos
      rw [mul_one] at key
      cases s
      · have h1 : decide (float64.signedUnits false m.val < 0) = false := by
          simp [float64.signedUnits]
        have h2 : (float64.signedUnits false m.val).natAbs = float64.units m.val := by
          simp [float64.signedUnits]
        rw [h1, h2]; exact key
      · have h1 : decide (float64.signedUnits true m.val < 0) = true := by
          simp only [float64.signedUnits, if_true, decide_eq_true_eq]
          omega
        have h2 : (float64.signedUnits true m.val).natAbs = float64.units m.val := by
          simp [float64.signedUnits]
        rw [h1, h2]; exact key

theorem float64_sub_zero (f : float64) : float64.sub f float64.zero = f :=
  float64_add_negZero f

/-- C11 fails as stated: an operand of an unsupported type is coerced to the
integer 0, so the integer 5 multiplied by it is the integer 0 and not 5, the
float 1.5 multiplied by it is the float 0.0, and the float `-0.0` plus it is
`+0.0`. -/
theorem unsupported_operand_counterexample :
    (Number.ofInt (int64.lit 5)).Multiply GoAny.other = Number.ofInt (int64.lit 0) ∧
    (Number.ofInt (int64.lit 5)).Multiply GoAny.other ≠ Number.ofInt (int64.lit 5) ∧
    (Number.ofFloat float64.onePointFive).Multiply GoAny.other = Number.ofFloat float64.zero ∧
    (Number.ofFloat float64.negZero).Add GoAny.other = Number.ofFloat float64.zero := by
  decide!

/-- C11, amended: for every value `a` and every operand `x` of an unsupported
type, `x` counts as the integer 0: `a.Minus(x)` returns `a` unchanged,
`a.Add(x)` returns `a` unchanged unless `a` is the float `-0.0` (the result is
then `+0.0`), and `a.Multiply(x)` returns `a` times zero, the integer 0 when
`a` is integer-backed and the float `a * 0.0` when `a` is float-backed. -/
theorem unsupported_operand_is_zero (a : Number) :
    a.Minus GoAny.other = a ∧
    (a ≠ Number.ofFloat float64.negZero → a.Add GoAny.other = a) ∧
    a.Add GoAny.other = a.Add (GoAny.int (int64.lit 0)) ∧
    a.Minus GoAny.other = a.Minus (GoAny.int (int64.lit 0)) ∧
    a.Multiply GoAny.other = a.Multiply (GoAny.int (int64.lit 0)) ∧
    (∀ i : intNumber, (Number.ofInt i).Multiply GoAny.other = Number.ofInt (int64.lit 0)) ∧
    (∀ f : floatNumber, (Number.ofFloat f).Multiply GoAny.other
      = Number.ofFloat (float64.mul f float64.zero)) := by
  refine ⟨?_, ?_, by cases a <;> rfl, by cases a <;> rfl, by cases a <;> rfl, ?_, ?_⟩
  · cases a with
    | ofInt i =>
      simp only [Number.Minus, intNumber.Minus, Of, int64.sub, int64_lit_zero_val,
        sub_zero, int64_wrap_val]
    | ofFloat f =>
      simp only [Number.Minus, floatNumber.Minus, Of, ofInt64_zero, float64_sub_zero]
  · intro hnz
    cases a with
    | ofInt i =>
      simp only [Number.Add, intNumber.Add, Of, int64.add, int64_lit_zero_val,
        add_zero, int64_wrap_val]
    | ofFloat f =>
      simp only [Number.Add, floatNumber.Add, Of, ofInt64_zero]
      rw [float64_add_zero f (fun hc => hnz (by rw [hc]))]
  · intro i
    simp only [Number.Multiply, intNumber.Multiply, Of, int64.mul, int64_lit_zero_val,
      mul_zero]
    rfl
  · intro f
    simp only [Number.Multiply, floatNumber.Multiply, Of, ofInt64_zero]

/-- C12: coercion is idempotent: `Of(v)` is `v` itself for every value `v`,
and so `Of(Of(x))` equals `Of(x)` for every input `x`, supported or not. -/
theorem of_idempotent (v : Number) (x : GoAny) :
    Of v.toAny = v ∧ Of (Of x).toAny = Of x := by
  have h : ∀ w : Number, Of w.toAny = w := by
    intro w
    cases w <;> rfl
  exact ⟨h v, h (Of x)⟩

/-- C19: for every dividend `a` and every divisor `x` of an unsupported type,
`a.Divide(x)` returns `DivideByZeroError` together with `a` unchanged: `Of`
turns `x` into the integer 0, which the zero check then finds. -/
theorem divide_unsupported_operand (a : Number) :
    a.Divide GoAny.other = (a, some GoError.DivideByZeroError) ∧
    Of GoAny.other = Number.ofInt (int64.lit 0) ∧
    (Of GoAny.other).IsZero = true := by
  refine ⟨?_, rfl, by decide⟩
  cases a <;> rfl

/-! ## Rounding of integer-backed values -/

/-- C16: for every integer-backed `i` and every list of digit counts, empty
or not, `i.Round`, `i.RoundUp` and `i.RoundDown` each return `i` itself, same
value and still integer-backed. -/
theorem int_rounding_is_identity (i : intNumber) (digits : List uint) :
    (Number.ofInt i).Round digits = Number.ofInt i ∧
    (Number.ofInt i).RoundUp digits = Number.ofInt i ∧
    (Number.ofInt i).RoundDown digits = Number.ofInt i :=
  ⟨rfl, rfl, rfl⟩

/-! ## Variants of `Max` and `Min`, cancellation, strict comparisons -/

/-- C17: for every pair of operands (the second one as `Of` coerces it),
`a.Max(b)` and `a.Min(b)` are integer-backed exactly when both operands are,
and float-backed as soon as one is; the result is one of the two operands,
converted to float when it is integer-backed and the other one is not.  The
integer 1 `.Min` the float 2.5 is the float 1.0, and the float 2.5 `.Max` the
integer 1 is the float 2.5. -/
theorem max_min_variant (a : Number) (b : GoAny) :
    (a.Max b).isInt = (a.isInt && (Of b).isInt) ∧
    (a.Min b).isInt = (a.isInt && (Of b).isInt) ∧
    (a.Max b).isFloat = (a.isFloat || (Of b).isFloat) ∧
    (a.Min b).isFloat = (a.isFloat || (Of b).isFloat) ∧
    (a.Max b = a.promotedAgainst (Of b) ∨ a.Max b = (Of b).promotedAgainst a) ∧
    (a.Min b = a.promotedAgainst (Of b) ∨ a.Min b = (Of b).promotedAgainst a) ∧
    (Number.ofInt (int64.lit 1)).Min (GoAny.float64 float64.twoPointFive)
      = Number.ofFloat float64.one ∧
    (Number.ofFloat float64.twoPointFive).Max (GoAny.int (int64.lit 1))
      = Number.ofFloat float64.twoPointFive := by
  refine ⟨?_, ?_, ?_, ?_, ?_, ?_, by decide!, by decide!⟩
  all_goals
    cases a <;> cases hb : Of b <;>
    simp only [Number.Max, Number.Min, intNumber.Max, intNumber.Min, floatNumber.Max,
      floatNumber.Min, hb, compare, Number.promotedAgainst, Number.GetFloat,
      intNumber.GetFloat, floatNumber.GetFloat, Number.isInt, Number.isFloat] <;>
    split_ifs <;> simp [Number.isInt, Number.isFloat]

/-- C18: for all integer-backed `a` and `b`, `a.Add(b).Minus(b)` is the
integer-backed `a`, and `a.Add(b).Minus(b).Minus(a)` satisfies `IsZero`, also
when the 64-bit sum wraps around, as it does for the largest integer plus 1. -/
theorem int_add_minus_cancel (i j : intNumber) :
    ((Number.ofInt i).Add (Number.ofInt j).toAny).Minus (Number.ofInt j).toAny
      = Number.ofInt i ∧
    ((((Number.ofInt i).Add (Number.ofInt j).toAny).Minus (Number.ofInt j).toAny).Minus
      (Number.ofInt i).toAny).IsZero = true ∧
    (Number.ofInt (int64.lit 9223372036854775807)).Add (Number.ofInt (int64.lit 1)).toAny
      = Number.ofInt int64.minValue := by
  have h1 := i.lo
  have h2 := i.hi
  have h3 := j.lo
  have h4 := j.hi
  have hc : ((Number.ofInt i).Add (Number.ofInt j).toAny).Minus (Number.ofInt j).toAny
      = Number.ofInt i := by
    simp only [Number.Add, Number.Minus, intNumber.Add, intNumber.Minus, Number.toAny, Of,
      int64.add, int64.sub]
    congr 1
    apply int64.ext
    unfold int64.wrap
    simp only
    omega
  refine ⟨hc, ?_, by decide⟩
  rw [hc]
  simp only [Number.Minus, intNumber.Minus, Number.toAny, Of, int64.sub, sub_self,
    Number.IsZero, intNumber_IsZero_iff]
  decide

theorem float64_lt_excl (f g : float64) (h : float64.lt f g = true) :
    float64.eq f g = false ∧ float64.lt g f = false := by
  cases f <;> cases g <;> simp_all [float64.eq, float64.lt]
  omega

/-- C20: over all four variant combinations `a.IsLessThan(b)` is true exactly
when `b.IsGreaterThan(a)` is, and at most one of `a.IsLessThan(b)`,
`a.IsEqualTo(b)` and `a.IsGreaterThan(b)` holds. -/
theorem strict_comparisons_converse (a b : Number) :
    a.IsLessThan b.toAny = b.IsGreaterThan a.toAny ∧
    a.IsGreaterThan b.toAny = b.IsLessThan a.toAny ∧
    ¬ (a.IsLessThan b.toAny = true ∧ a.IsEqualTo b.toAny = true) ∧
    ¬ (a.IsLessThan b.toAny = true ∧ a.IsGreaterThan b.toAny = true) ∧
    ¬ (a.IsEqualTo b.toAny = true ∧ a.IsGreaterThan b.toAny = true) := by
  cases a with
  | ofInt i =>
    cases b with
    | ofInt j =>
      simp only [Number.IsLessThan, Number.IsGreaterThan, Number.IsEqualTo,
        intNumber.IsLessThan, intNumber.IsGreaterThan, intNumber.IsEqualTo, Number.toAny, Of,
        decide_eq_true_eq, int64.ext_iff]
      refine ⟨trivial, trivial, ?_, ?_, ?_⟩ <;> omega
    | ofFloat g =>
      simp only [Number.IsLessThan, Number.IsGreaterThan, Number.IsEqualTo,
        intNumber.IsLessThan, intNumber.IsGreaterThan, intNumber.IsEqualTo,
        floatNumber.IsLessThan, floatNumber.IsGreaterThan, Number.toAny, Of, float64.gt]
      refine ⟨trivial, trivial, ?_, ?_, ?_⟩
      · rintro ⟨h1, h2⟩; rw [(float64_lt_excl _ _ h1).1] at h2; cases h2
      · rintro ⟨h1, h2⟩; rw [(float64_lt_excl _ _ h1).2] at h2; cases h2
      · rintro ⟨h1, h2⟩
        rw [float64_eq_comm, (float64_lt_excl _ _ h2).1] at h1; cases h1
  | ofFloat f =>
    cases b with
    | ofInt j =>
      simp only [Number.IsLessThan, Number.IsGreaterThan, Number.IsEqualTo,
        intNumber.IsLessThan, intNumber.IsGreaterThan, floatNumber.IsEqualTo,
        floatNumber.IsLessThan, floatNumber.IsGreaterThan, Number.toAny, Of, float64.gt]
      refine ⟨trivial, trivial, ?_, ?_, ?_⟩
      · rintro ⟨h1, h2⟩; rw [(float64_lt_excl _ _ h1).1] at h2; cases h2
      · rintro ⟨h1, h2⟩; rw [(float64_lt_excl _ _ h1).2] at h2; cases h2
      · rintro ⟨h1, h2⟩
        rw [float64_eq_comm, (float64_lt_excl _ _ h2).1] at h1; cases h1
    | ofFloat g =>
      simp only [Number.IsLessThan, Number.IsGreaterThan, Number.IsEqualTo,
        floatNumber.IsEqualTo, floatNumber.IsLessThan, floatNumber.IsGreaterThan,
        Number.toAny, Of, float64.gt]
      refine ⟨trivial, trivial, ?_, ?_, ?_⟩
      · rintro ⟨h1, h2⟩; rw [(float64_lt_excl _ _ h1).1] at h2; cases h2
      · rintro ⟨h1, h2⟩; rw [(float64_lt_excl _ _ h1).2] at h2; cases h2
      · rintro ⟨h1, h2⟩
        rw [float64_eq_comm, (float64_lt_excl _ _ h2).1] at h1; cases h1

/-! ## Rounding of float-backed values -/

theorem toRat_nonneg (m : Fin finiteMags64) :
    float64.toRat (.fin false m) = (float64.units m.val : ℚ) / (unitScale : ℚ) ∧
    0 ≤ float64.toRat (.fin false m) := by
  have h : float64.toRat (.fin false m) = (float64.units m.val : ℚ) / (unitScale : ℚ) := by
    simp only [float64.toRat, float64.signedUnits, Bool.false_eq_true, if_false, Int.cast_natCast]
  refine ⟨h, ?_⟩
  rw [h]
  positivity

theorem units_of_large (m : Nat) (h : 2 ^ 53 ≤ m) :
    float64.units m = (2 ^ 52 + m % 2 ^ 52) * 2 ^ (m / 2 ^ 52 - 1) ∧ 2 ≤ m / 2 ^ 52 := by
  have hE : 2 ≤ m / 2 ^ 52 := by
    apply (Nat.le_div_iff_mul_le (by norm_num)).2
    have h53 : (2:Nat) ^ 53 = 2 * 2 ^ 52 := by norm_num
    omega
  refine ⟨?_, hE⟩
  unfold float64.units
  rw [if_neg (by omega)]

theorem units_whole_of_large_aux (e m : Nat) (he : 0 < e)
    (h : 2 ^ 52 * 2 ^ e ≤ float64.units m) : ∃ k : ℕ, float64.units m = k * 2 ^ e := by
  have hS2 : 2 ≤ 2 ^ e := Nat.le_self_pow (by omega) 2
  by_cases hs : m < 2 ^ 53
  · exfalso
    rw [units_of_small m hs] at h
    have h53 : (2:Nat) ^ 53 = 2 ^ 52 * 2 := by norm_num
    have : 2 ^ 52 * 2 ≤ 2 ^ 52 * 2 ^ e := Nat.mul_le_mul_left _ hS2
    omega
  · obtain ⟨hu, hE⟩ := units_of_large m (not_lt.1 hs)
    have hf : m % 2 ^ 52 < 2 ^ 52 := Nat.mod_lt _ (by norm_num)
    generalize m / 2 ^ 52 = E at hu hE
    generalize m % 2 ^ 52 = f at hu hf
    by_cases hE2 : E - 1 < e
    · exfalso
      have h1 : (2 ^ 52 + f) * 2 ^ (E - 1) < 2 ^ 53 * 2 ^ (E - 1) := by
        apply Nat.mul_lt_mul_of_pos_right _ (by positivity)
        have h53 : (2:Nat) ^ 53 = 2 * 2 ^ 52 := by norm_num
        omega
      have h2 : 2 ^ 53 * 2 ^ (E - 1) ≤ 2 ^ 53 * 2 ^ (e - 1) :=
        Nat.mul_le_mul_left _ (Nat.pow_le_pow_right (by norm_num) (by omega))
      have h3 : (2:Nat) ^ 53 * 2 ^ (e - 1) = 2 ^ 52 * 2 ^ e := by
        rw [← pow_add, ← pow_add]
        congr 1
        omega
      rw [hu] at h
      exact absurd h (not_le.2 (lt_of_lt_of_le h1 (le_of_le_of_eq h2 h3)))
    · have hp : (2:Nat) ^ (E - 1 - e + e) = 2 ^ (E - 1 - e) * 2 ^ e :=
        pow_add 2 (E - 1 - e) e
      have hee : E - 1 - e + e = E - 1 := by omega
      rw [hee] at hp
      refine ⟨(2 ^ 52 + f) * 2 ^ (E - 1 - e), ?_⟩
      rw [hu, hp]
      exact (mul_assoc _ _ _).symm

/-- A finite `float64` of magnitude `2^52` or more is a whole number. -/
theorem units_whole_of_large (m : Nat) (h : 2 ^ 52 * unitScale ≤ float64.units m) :
    ∃ k : ℕ, float64.units m = k * unitScale := by
  unfold unitScale at h ⊢
  exact units_whole_of_large_aux unitExp m (by decide) h

/-- The expectations of the package tests on `ShiftDecimal`, `RoundUp` and the
integrated product hold on binary64: `1` shifted by -2 and -4 is 0.01 and
0.0001, 0.01 shifted by 2 is 1.0, `RoundUp(2)` of 0.664 is 0.67, the `float32`
0.1 times 150 rounds up to 15, and 100 times (3 shifted by 2) is 30000. -/
theorem binary64_package_tests :
    (Number.ofInt (int64.lit 1)).ShiftDecimal (int64.lit (-2))
      = Number.ofFloat (.fin false ⟨0x3F847AE147AE147B, by decide⟩) ∧
    (Number.ofInt (int64.lit 1)).ShiftDecimal (int64.lit (-4))
      = Number.ofFloat (.fin false ⟨0x3F1A36E2EB1C432D, by decide⟩) ∧
    (Number.ofFloat (.fin false ⟨0x3F847AE147AE147B, by decide⟩)).ShiftDecimal (int64.lit 2)
      = Number.ofFloat float64.one ∧
    (Number.ofFloat (.fin false ⟨0x3FE53F7CED916873, by decide⟩)).RoundUp [uint.lit 2]
      = Number.ofFloat (.fin false ⟨0x3FE570A3D70A3D71, by decide⟩) ∧
    ((Number.ofFloat (float32.toFloat64 (.fin false ⟨0x3DCCCCCD, by decide⟩))).Multiply
        (GoAny.int (int64.lit 150))).RoundUp []
      = Number.ofFloat (.fin false ⟨0x402E000000000000, by decide⟩) ∧
    (Number.ofInt (int64.lit 100)).Multiply
        ((Number.ofInt (int64.lit 3)).ShiftDecimal (int64.lit 2)).toAny
      = Number.ofFloat (.fin false ⟨0x40DD4C0000000000, by decide⟩) := by
  decide!

theorem roundHalfEven_ge (n D : Nat) : n / D ≤ roundHalfEven n D := by
  unfold roundHalfEven
  simp only
  split_ifs <;> omega

theorem roundHalfEven_le_succ (n D : Nat) : roundHalfEven n D ≤ n / D + 1 := by
  unfold roundHalfEven
  simp only
  split_ifs <;> omega

theorem roundHalfEven_of_small_rem (n D : Nat) (h : 2 * (n % D) < D) :
    roundHalfEven n D = n / D := by
  unfold roundHalfEven
  simp only
  rw [if_neg]
  omega

theorem roundHalfEven_scale (n D c : Nat) (hc : 0 < c) :
    roundHalfEven (n * c) (D * c) = roundHalfEven n D := by
  unfold roundHalfEven
  simp only [Nat.mul_div_mul_right _ _ hc, Nat.mul_mod_mul_right]
  have h1 : (D * c < 2 * (n % D * c)) ↔ (D < 2 * (n % D)) := by
    rw [← mul_assoc]
    exact Nat.mul_lt_mul_right hc
  have h2 : (2 * (n % D * c) = D * c) ↔ (2 * (n % D) = D) := by
    rw [← mul_assoc]
    exact Nat.mul_left_inj (Nat.pos_iff_ne_zero.1 hc)
  simp only [h1, h2]

theorem roundHalfEven_grid_lower (n D a : Nat) (hD : 0 < D) (h : a * D ≤ n) :
    a ≤ roundHalfEven n D :=
  le_trans ((Nat.le_div_iff_mul_le hD).2 h) (roundHalfEven_ge n D)

theorem roundHalfEven_grid_upper (n D b : Nat) (hD : 0 < D) (h : n ≤ b * D) :
    roundHalfEven n D ≤ b := by
  rcases Nat.lt_or_ge n (b * D) with hlt | hge
  · have h1 : n / D < b := (Nat.div_lt_iff_lt_mul hD).2 hlt
    have h2 := roundHalfEven_le_succ n D
    generalize n / D = q at h1 h2
    omega
  · have he : n = b * D := le_antisymm h hge
    rw [he, roundHalfEven_exact b D hD]

theorem roundHalfEven_grid_below (n D b : Nat) (hD : 0 < D) (h : 2 * n + D < 2 * (b * D)) :
    roundHalfEven n D < b := by
  have hlt : n < b * D := by omega
  have h1 : n / D < b := (Nat.div_lt_iff_lt_mul hD).2 hlt
  rcases Nat.lt_or_ge (n / D + 1) b with h2 | h2
  · have := roundHalfEven_le_succ n D
    generalize n / D = q at h1 h2 this
    omega
  · have h3 : n / D = b - 1 := by
      generalize n / D = q at h1 h2
      omega
    have h4 := Nat.div_add_mod n D
    rw [h3] at h4
    have hb : 1 ≤ b := by omega
    have h5 : D * (b - 1) + D = b * D := by
      have : b = (b - 1) + 1 := by omega
      conv_rhs => rw [this]
      ring
    have h6 : 2 * (n % D) < D := by omega
    rw [roundHalfEven_of_small_rem n D h6]
    omega

/-- The value of the magnitude pattern `k * 2^52 + m` for a significand `m` in
range: `m * 2^k` units. -/
theorem units_encode (k m : Nat) (h0 : k = 0 → m ≤ 2 ^ 53)
    (h1 : 0 < k → 2 ^ 52 ≤ m ∧ m ≤ 2 ^ 53) : float64.units (k * 2 ^ 52 + m) = m * 2 ^ k := by
  have h53 : (2:Nat) ^ 53 = 2 * 2 ^ 52 := by norm_num
  rcases Nat.eq_zero_or_pos k with hk | hk
  · subst hk
    have hm := h0 rfl
    simp only [zero_mul, zero_add, pow_zero, mul_one]
    rcases Nat.lt_or_ge m (2 ^ 53) with hlt | hge
    · exact units_of_small m hlt
    · have he : m = 2 ^ 53 := le_antisymm hm hge
      subst he
      decide!
  · obtain ⟨hlo, hhi⟩ := h1 hk
    rcases Nat.lt_or_ge m (2 ^ 53) with hlt | hge
    · have hmag : 2 ^ 53 ≤ k * 2 ^ 52 + m := by
        have : 1 * 2 ^ 52 ≤ k * 2 ^ 52 := Nat.mul_le_mul_right _ hk
        omega
      obtain ⟨hu, -⟩ := units_of_large _ hmag
      have hdiv : (k * 2 ^ 52 + m) / 2 ^ 52 = k + 1 := by
        have : k * 2 ^ 52 + m = (m - 2 ^ 52) + 2 ^ 52 * (k + 1) := by
          rw [mul_add, mul_one, mul_comm k]; omega
        rw [this, Nat.add_mul_div_left _ _ (by norm_num : 0 < 2 ^ 52),
          Nat.div_eq_of_lt (by omega)]
        omega
      have hmod : (k * 2 ^ 52 + m) % 2 ^ 52 = m - 2 ^ 52 := by
        have : k * 2 ^ 52 + m = (m - 2 ^ 52) + 2 ^ 52 * (k + 1) := by
          rw [mul_add, mul_one, mul_comm k]; omega
        rw [this, Nat.add_mul_mod_self_left, Nat.mod_eq_of_lt (by omega)]
      have hnew : float64.units (k * 2 ^ 52 + m)
          = (2 ^ 52 + (m - 2 ^ 52)) * 2 ^ (k + 1 - 1) := by
        rw [hu, hdiv, hmod]
      have e1 : 2 ^ 52 + (m - 2 ^ 52) = m := by omega
      have e2 : k + 1 - 1 = k := by omega
      rw [hnew, e1, e2]
    · have he : m = 2 ^ 53 := le_antisymm hhi hge
      subst he
      have hmag : 2 ^ 53 ≤ k * 2 ^ 52 + 2 ^ 53 := by omega
      obtain ⟨hu, -⟩ := units_of_large _ hmag
      have hrew : k * 2 ^ 52 + 2 ^ 53 = 0 + 2 ^ 52 * (k + 2) := by
        rw [mul_add, mul_comm k]; omega
      have hdiv : (k * 2 ^ 52 + 2 ^ 53) / 2 ^ 52 = k + 2 := by
        rw [hrew, Nat.add_mul_div_left _ _ (by norm_num : 0 < 2 ^ 52)]
        simp
      have hmod : (k * 2 ^ 52 + 2 ^ 53) % 2 ^ 52 = 0 := by
        rw [hrew, Nat.add_mul_mod_self_left]
        rfl
      have hnew : float64.units (k * 2 ^ 52 + 2 ^ 53) = (2 ^ 52 + 0) * 2 ^ (k + 2 - 1) := by
        rw [hu, hdiv, hmod]
      have e2 : k + 2 - 1 = k + 1 := by omega
      rw [hnew, e2, pow_succ, add_zero]
      have h53' : (2:Nat) ^ 53 = 2 ^ 52 * 2 := by norm_num
      rw [h53']
      ring

theorem binade_bounds (V : Nat) :
    V < 2 ^ (bitLen V - 53) * 2 ^ 53 ∧ (0 < bitLen V - 53 → 2 ^ (bitLen V - 53) * 2 ^ 52 ≤ V) := by
  constructor
  · have h1 := bitLen_lt V
    have h2 : 2 ^ bitLen V ≤ 2 ^ (bitLen V - 53 + 53) :=
      Nat.pow_le_pow_right (by norm_num) (by omega)
    rw [pow_add] at h2
    omega
  · intro hk
    have hV : V ≠ 0 := by
      intro h0
      subst h0
      simp [bitLen, bitLenAux] at hk
    have h1 := bitLen_le V hV
    have h2 : bitLen V - 1 = bitLen V - 53 + 52 := by omega
    rw [h2, pow_add] at h1
    exact h1

theorem roundMag_one (V : Nat) :
    roundMag V 1 = (bitLen V - 53) * 2 ^ 52 + roundHalfEven V (2 ^ (bitLen V - 53)) := by
  unfold roundMag
  simp only [Nat.div_one, one_mul]

theorem roundMag_scale (V c : Nat) (hc : 0 < c) : roundMag (V * c) c = roundMag V 1 := by
  unfold roundMag
  simp only [Nat.mul_div_cancel _ hc, Nat.div_one, one_mul]
  rw [mul_comm c, roundHalfEven_scale _ _ _ hc]

theorem round_scale (s : Bool) (V c : Nat) (hc : 0 < c) :
    float64.round s (V * c) c = float64.round s V 1 := by
  unfold float64.round
  simp only [roundMag_scale V c hc]

/-- What rounding an integer number `V` of units to binary64 gives, for `V`
below `2^53 * 2^1074`: a finite value on the grid of spacing `2^k`, `k` the
binade of `V`, that no grid point separates from `V`. -/
theorem round_grid (s : Bool) (V : Nat) (hV : V < 2 ^ 53 * unitScale) :
    ∃ (m : Fin finiteMags64) (k : Nat),
      float64.round s V 1 = .fin s m ∧ k ≤ unitExp ∧ 2 ^ k ∣ float64.units m.val ∧
      V < 2 ^ k * 2 ^ 53 ∧ (0 < k → 2 ^ k * 2 ^ 52 ≤ V) ∧
      (∀ A, 2 ^ k ∣ A → A ≤ V → A ≤ float64.units m.val) ∧
      (∀ B, 2 ^ k ∣ B → V ≤ B → float64.units m.val ≤ B) ∧
      (∀ B, 2 ^ k ∣ B → 2 * V + 2 ^ k < 2 * B → float64.units m.val < B) := by
  obtain ⟨hb1, hb2⟩ := binade_bounds V
  generalize hk : bitLen V - 53 = k at hb1 hb2
  have hpos : 0 < 2 ^ k := by positivity
  have hkE : k ≤ unitExp := by
    by_contra hc
    have h1 : unitExp + 1 ≤ k := by omega
    have h2 := hb2 (by omega)
    have h3 : 2 ^ (unitExp + 1) ≤ 2 ^ k := Nat.pow_le_pow_right (by norm_num) h1
    have h4 : 2 ^ (unitExp + 1) * 2 ^ 52 ≤ V := le_trans (Nat.mul_le_mul_right _ h3) h2
    have h5 : 2 ^ (unitExp + 1) * 2 ^ 52 = 2 ^ 53 * unitScale := by
      unfold unitScale
      rw [pow_succ]
      have h53 : (2:Nat) ^ 53 = 2 ^ 52 * 2 := by norm_num
      rw [h53]
      ring
    omega
  have hR2 : roundHalfEven V (2 ^ k) ≤ 2 ^ 53 :=
    roundHalfEven_grid_upper V (2 ^ k) (2 ^ 53) hpos (by rw [mul_comm]; exact le_of_lt hb1)
  have hR1 : 0 < k → 2 ^ 52 ≤ roundHalfEven V (2 ^ k) := fun h =>
    roundHalfEven_grid_lower V (2 ^ k) (2 ^ 52) hpos (by rw [mul_comm]; exact hb2 h)
  have hmag : roundMag V 1 = k * 2 ^ 52 + roundHalfEven V (2 ^ k) := by
    rw [roundMag_one, hk]
  have hu : float64.units (roundMag V 1) = roundHalfEven V (2 ^ k) * 2 ^ k := by
    rw [hmag]
    exact units_encode k _ (fun _ => hR2) (fun h => ⟨hR1 h, hR2⟩)
  have hfin : roundMag V 1 < finiteMags64 := by
    rw [hmag]
    have : k ≤ 1074 := hkE
    have h53 : (2:Nat) ^ 53 = 9007199254740992 := by norm_num
    have h52 : (2:Nat) ^ 52 = 4503599627370496 := by norm_num
    rw [h53] at hR2
    rw [h52]
    show _ < 9218868437227405312
    omega
  refine ⟨⟨roundMag V 1, hfin⟩, k, ?_, hkE, ?_, hb1, hb2, ?_, ?_, ?_⟩
  · unfold float64.round
    rw [dif_pos hfin]
  · show 2 ^ k ∣ float64.units (roundMag V 1)
    rw [hu]
    exact Dvd.intro_left _ rfl
  · rintro A ⟨a, rfl⟩ hA
    show _ ≤ float64.units (roundMag V 1)
    rw [hu, mul_comm (2 ^ k) a]
    exact Nat.mul_le_mul_right _
      (roundHalfEven_grid_lower V (2 ^ k) a hpos (by rw [mul_comm a]; exact hA))
  · rintro B ⟨b, rfl⟩ hB
    show float64.units (roundMag V 1) ≤ _
    rw [hu, mul_comm (2 ^ k) b]
    exact Nat.mul_le_mul_right _
      (roundHalfEven_grid_upper V (2 ^ k) b hpos (by rw [mul_comm b]; exact hB))
  · rintro B ⟨b, rfl⟩ hB
    show float64.units (roundMag V 1) < _
    rw [hu, mul_comm (2 ^ k) b]
    exact Nat.mul_lt_mul_of_pos_right
      (roundHalfEven_grid_below V (2 ^ k) b hpos (by rw [mul_comm b]; exact hB)) hpos

/-! ### Whole numbers on binary64 -/

/-- Every whole number below `2^53` is a binary64 value. -/
theorem round_whole (s : Bool) (q : Nat) (hq : q < 2 ^ 53) :
    ∃ m : Fin finiteMags64, float64.round s (q * unitScale) 1 = .fin s m ∧
      float64.units m.val = q * unitScale := by
  have hV : q * unitScale < 2 ^ 53 * unitScale := Nat.mul_lt_mul_of_pos_right hq unitScale_pos
  obtain ⟨m, k, hm, hk, -, -, -, hlo, hhi, -⟩ := round_grid s (q * unitScale) hV
  have hdvd : 2 ^ k ∣ q * unitScale :=
    Dvd.dvd.mul_left (by unfold unitScale; exact pow_dvd_pow 2 hk) q
  exact ⟨m, hm, le_antisymm (hhi _ hdvd le_rfl) (hlo _ hdvd le_rfl)⟩

theorem toRat_fin (s : Bool) (m : Fin finiteMags64) :
    float64.toRat (.fin s m)
      = (if s then -(float64.units m.val : ℚ) else (float64.units m.val : ℚ)) / (unitScale : ℚ) := by
  cases s <;> simp [float64.toRat, float64.signedUnits]

theorem toRat_of_units (s : Bool) (m : Fin finiteMags64) (q : Nat)
    (h : float64.units m.val = q * unitScale) :
    float64.toRat (.fin s m) = if s then -(q : ℚ) else (q : ℚ) := by
  have hS : (unitScale : ℚ) ≠ 0 := by exact_mod_cast (Nat.pos_iff_ne_zero.1 unitScale_pos)
  rw [toRat_fin, h]
  cases s <;> simp <;> field_simp

theorem div_mod_cast (u S : Nat) (hS : 0 < S) :
    (u : ℚ) / S = ((u / S : ℕ) : ℚ) + ((u % S : ℕ) : ℚ) / S ∧
    (0 : ℚ) ≤ ((u % S : ℕ) : ℚ) / S ∧ ((u % S : ℕ) : ℚ) / S < 1 := by
  have hSq : (0 : ℚ) < (S : ℚ) := by exact_mod_cast hS
  refine ⟨?_, by positivity, ?_⟩
  · have h := Nat.div_add_mod u S
    generalize u / S = q at h ⊢
    generalize u % S = r at h ⊢
    have h2 : (u : ℚ) = (S : ℚ) * (q : ℚ) + (r : ℚ) := by
      exact_mod_cast h.symm
    rw [h2]
    field_simp
    ring
  · rw [div_lt_one hSq]
    exact_mod_cast Nat.mod_lt u hS

theorem floor_units (u S : Nat) (hS : 0 < S) :
    ⌊(u : ℚ) / S⌋ = ((u / S : ℕ) : ℤ) ∧
    ⌊-((u : ℚ) / S)⌋ = -(((if u % S = 0 then u / S else u / S + 1 : ℕ)) : ℤ) := by
  obtain ⟨h1, h2, h3⟩ := div_mod_cast u S hS
  have hSq : (0 : ℚ) < (S : ℚ) := by exact_mod_cast hS
  generalize u / S = q at h1 ⊢
  generalize hr' : u % S = r at h1 h2 h3 ⊢
  constructor
  · rw [Int.floor_eq_iff, Int.cast_natCast]
    constructor <;> linarith
  · rw [Int.floor_eq_iff]
    by_cases hr : r = 0
    · rw [if_pos hr]
      rw [hr] at h1
      simp only [Nat.cast_zero, zero_div, add_zero] at h1
      rw [Int.cast_neg, Int.cast_natCast]
      constructor <;> linarith
    · rw [if_neg hr]
      have hpos : (0 : ℚ) < (r : ℚ) / S := by
        apply div_pos _ hSq
        exact_mod_cast Nat.pos_of_ne_zero hr
      rw [Int.cast_neg, Int.cast_natCast, Nat.cast_add, Nat.cast_one]
      constructor <;> linarith

/-- A whole number next to a binary64 value is a binary64 value. -/
theorem round_whole_near (s : Bool) (m : Fin finiteMags64) (q : Nat)
    (h1 : q ≤ float64.units m.val / unitScale + 1)
    (h2 : 2 ^ 52 * unitScale ≤ float64.units m.val → q = float64.units m.val / unitScale) :
    ∃ m' : Fin finiteMags64, float64.round s (q * unitScale) 1 = .fin s m' ∧
      float64.units m'.val = q * unitScale := by
  by_cases hbig : 2 ^ 52 * unitScale ≤ float64.units m.val
  · obtain ⟨k, hk⟩ := units_whole_of_large m.val hbig
    have hq : q = k := by
      rw [h2 hbig, hk, Nat.mul_div_cancel _ unitScale_pos]
    subst hq
    refine ⟨m, ?_, hk⟩
    rw [← hk]
    have := round_units s m 1 Nat.one_pos
    rwa [mul_one] at this
  · have hlt : float64.units m.val / unitScale < 2 ^ 52 := by
      apply (Nat.div_lt_iff_lt_mul unitScale_pos).2
      exact not_le.1 hbig
    have h53 : (2:Nat) ^ 53 = 2 * 2 ^ 52 := by norm_num
    exact round_whole s q (by omega)

theorem math_Floor_spec (s : Bool) (m : Fin finiteMags64) :
    ∃ m' : Fin finiteMags64, math.Floor (.fin s m) = .fin s m' ∧
      float64.toRat (.fin s m') = (⌊float64.toRat (.fin s m)⌋ : ℚ) := by
  have hS := unitScale_pos
  obtain ⟨f1, f2⟩ := floor_units (float64.units m.val) unitScale hS
  cases s
  · obtain ⟨m', hm', hu'⟩ := round_whole_near false m (float64.units m.val / unitScale)
      (by omega) (fun _ => rfl)
    refine ⟨m', ?_, ?_⟩
    · simp only [math.Floor, Bool.false_eq_true, if_false]
      exact hm'
    · rw [toRat_of_units false m' _ hu', toRat_fin]
      simp only [Bool.false_eq_true, if_false]
      rw [f1, Int.cast_natCast]
  · obtain ⟨m', hm', hu'⟩ := round_whole_near true m
      (if float64.units m.val % unitScale = 0 then float64.units m.val / unitScale
        else float64.units m.val / unitScale + 1)
      (by split_ifs <;> omega)
      (by
        intro hbig
        obtain ⟨k, hk⟩ := units_whole_of_large m.val hbig
        have : float64.units m.val % unitScale = 0 := by rw [hk]; exact Nat.mul_mod_left _ _
        rw [if_pos this])
    refine ⟨m', ?_, ?_⟩
    · simp only [math.Floor, if_true]
      exact hm'
    · rw [toRat_of_units true m' _ hu', toRat_fin]
      simp only [if_true]
      rw [neg_div, f2, Int.cast_neg, Int.cast_natCast]

theorem toRat_neg (s : Bool) (m : Fin finiteMags64) :
    float64.toRat (.fin (!s) m) = -float64.toRat (.fin s m) := by
  rw [toRat_fin, toRat_fin]
  cases s <;> simp [neg_div]

theorem math_Ceil_spec (s : Bool) (m : Fin finiteMags64) :
    ∃ m' : Fin finiteMags64, math.Ceil (.fin s m) = .fin s m' ∧
      float64.toRat (.fin s m') = (⌈float64.toRat (.fin s m)⌉ : ℚ) := by
  obtain ⟨m', hm', hv'⟩ := math_Floor_spec (!s) m
  refine ⟨m', ?_, ?_⟩
  · simp only [math.Ceil, float64.neg, hm', Bool.not_not]
  · have h1 := toRat_neg s m'
    have h2 := toRat_neg s m
    rw [h1, h2, Int.floor_neg, Int.cast_neg, neg_inj] at hv'
    exact hv'

theorem toInt64_spec (m : Fin finiteMags64)
    (h : float64.units m.val / unitScale < 9223372036854775808) :
    (float64.toInt64 (.fin false m)).val = ((float64.units m.val / unitScale : ℕ) : ℤ) := by
  have h0 : (0:ℤ) ≤ ((float64.units m.val / unitScale : ℕ) : ℤ) := Int.natCast_nonneg _
  have h1 : ((float64.units m.val / unitScale : ℕ) : ℤ) < 9223372036854775808 := by
    exact_mod_cast h
  simp only [float64.toInt64, Bool.false_eq_true, if_false]
  rw [dif_pos ⟨by linarith, h1⟩]

theorem ofInt64_spec (i : int64) (h0 : 0 ≤ i.val) (h1 : i.val < 9007199254740992) :
    ∃ m' : Fin finiteMags64, float64.ofInt64 i = .fin false m' ∧
      float64.units m'.val = i.val.toNat * unitScale := by
  obtain ⟨m', hm', hu'⟩ := round_whole false i.val.toNat (by
    have h53 : (2:Nat) ^ 53 = 9007199254740992 := by norm_num
    omega)
  refine ⟨m', ?_, hu'⟩
  unfold float64.ofInt64
  rw [show decide (i.val < 0) = false from by simp; omega]
  have : i.val.natAbs = i.val.toNat := by omega
  rw [this]
  exact hm'

theorem mul_fin (s t : Bool) (a b : Fin finiteMags64) (V : Nat)
    (h : float64.units a.val * float64.units b.val = V * unitScale) :
    float64.mul (.fin s a) (.fin t b) = float64.round (xor s t) V 1 := by
  simp only [float64.mul]
  rw [h]
  exact round_scale _ V unitScale unitScale_pos

theorem pow_dvd_unitScale (k : Nat) (hk : k ≤ unitExp) : 2 ^ k ∣ unitScale := by
  unfold unitScale
  exact pow_dvd_pow 2 hk

theorem units_hundred : float64.units 0x4059000000000000 = 100 * unitScale := by decide!

theorem units_hundredth : ∃ T : Nat, 0 < T ∧ unitScale = 576460752303423488 * T ∧
    float64.units 0x3F847AE147AE147B = 5764607523034235 * T :=
  ⟨2 ^ (unitExp - 59), pow_pos (by norm_num) _, by decide!, by decide!⟩

/-- The spacing of the binary64 values around a finite one. -/
theorem units_grid (m : Nat) :
    ∃ k : Nat, 2 ^ k ∣ float64.units m ∧ float64.units m < 2 ^ k * 2 ^ 53 ∧
      (k = 0 ∨ 2 ^ 52 * 2 ^ k ≤ float64.units m) := by
  by_cases hs : m < 2 ^ 53
  · refine ⟨0, one_dvd _, ?_, Or.inl rfl⟩
    rw [units_of_small m hs]
    simpa using hs
  · obtain ⟨hu, _⟩ := units_of_large m (by omega)
    refine ⟨m / 2 ^ 52 - 1, Dvd.intro_left _ hu.symm, ?_, Or.inr ?_⟩
    · rw [hu]
      have hm : m % 2 ^ 52 < 2 ^ 52 := Nat.mod_lt _ (by norm_num)
      have hp : 0 < 2 ^ (m / 2 ^ 52 - 1) := pow_pos (by norm_num) _
      generalize 2 ^ (m / 2 ^ 52 - 1) = P at hp ⊢
      generalize m % 2 ^ 52 = f at hm ⊢
      nlinarith
    · rw [hu]
      exact Nat.mul_le_mul_right _ (Nat.le_add_right _ _)

/-- The binary64 product `x * 100` of a non-negative `x` with `100 * x < 2^52`:
it stays between the hundredfolds of the whole numbers around `x`, and on the
same side of every whole number as the exact product. -/
theorem shift_hundred (m : Fin finiteMags64)
    (h : 100 * float64.units m.val < 2 ^ 52 * unitScale) :
    ∃ mz : Fin finiteMags64,
      float64.mul (.fin false m) float64.hundred = .fin false mz ∧
      100 * (float64.units m.val / unitScale * unitScale) ≤ float64.units mz.val ∧
      float64.units mz.val < 100 * ((float64.units m.val / unitScale + 1) * unitScale) ∧
      float64.units mz.val ≤ 2 ^ 52 * unitScale ∧
      (∀ a : Nat, a * unitScale ≤ 100 * float64.units m.val →
        a * unitScale ≤ float64.units mz.val) ∧
      (∀ b : Nat, 100 * float64.units m.val ≤ b * unitScale →
        float64.units mz.val ≤ b * unitScale) := by
  have hS := unitScale_pos
  have e52 : (2:Nat) ^ 52 = 4503599627370496 := by norm_num
  have e53 : (2:Nat) ^ 53 = 9007199254740992 := by norm_num
  rw [e52] at h
  have hmul : float64.mul (.fin false m) float64.hundred =
      float64.round false (float64.units m.val * 100) 1 := by
    have := mul_fin false false m ⟨0x4059000000000000, by decide⟩ (float64.units m.val * 100)
      (by rw [units_hundred]; ring)
    simpa [float64.hundred] using this
  obtain ⟨mz, k, hr, hk, hdvd, hVlt, hVge, G1, G2, G3⟩ :=
    round_grid false (float64.units m.val * 100) (by rw [e53]; omega)
  have hkS : 2 ^ k ∣ unitScale := pow_dvd_unitScale k hk
  obtain ⟨kx, hxdvd, hxlt, hxk⟩ := units_grid m.val
  rw [e53] at hVlt hxlt
  rw [e52] at hVge hxk
  have hjle : float64.units m.val / unitScale * unitScale ≤ float64.units m.val :=
    Nat.div_mul_le_self _ _
  have hjlt : float64.units m.val < (float64.units m.val / unitScale + 1) * unitScale :=
    (Nat.div_lt_iff_lt_mul hS).1 (Nat.lt_succ_self _)
  refine ⟨mz, by rw [hmul, hr], ?_, ?_, ?_, ?_, ?_⟩
  · apply G1 _ (Dvd.dvd.mul_left (Dvd.dvd.mul_left hkS _) _)
    omega
  · have hkxS : 2 ^ kx ∣ unitScale := by
      rcases hxk with h0 | hbig
      · rw [h0]; exact one_dvd _
      · apply pow_dvd_unitScale
        by_contra hc
        have h1 : unitExp + 1 ≤ kx := by omega
        have h2 : 2 ^ (unitExp + 1) ≤ 2 ^ kx := Nat.pow_le_pow_right (by norm_num) h1
        have h3 : 2 ^ (unitExp + 1) = 2 * unitScale := by
          unfold unitScale; rw [pow_succ]; ring
        rw [h3] at h2
        generalize 2 ^ kx = Q at h2 hbig
        omega
    have hd : 2 ^ kx ∣ (float64.units m.val / unitScale + 1) * unitScale - float64.units m.val :=
      Nat.dvd_sub' (Dvd.dvd.mul_left hkxS _) hxdvd
    have hQ : 2 ^ kx ≤ (float64.units m.val / unitScale + 1) * unitScale - float64.units m.val :=
      Nat.le_of_dvd (by omega) hd
    have hQpos : 0 < 2 ^ kx := pow_pos (by norm_num) _
    have hP : 2 ^ k < 200 * 2 ^ kx := by
      rcases Nat.eq_zero_or_pos k with h0 | hpos
      · rw [h0]; generalize 2 ^ kx = Q at hQpos; omega
      · have := hVge hpos
        generalize 2 ^ kx = Q at hxlt
        generalize 2 ^ k = P at this
        omega
    apply G3 _ (Dvd.dvd.mul_left (Dvd.dvd.mul_left hkS _) _)
    generalize 2 ^ kx = Q at hQ hP
    generalize 2 ^ k = P at hP
    generalize (float64.units m.val / unitScale + 1) * unitScale = D at hQ hjlt ⊢
    omega
  · rw [e52]
    apply G2 _ (Dvd.dvd.mul_left hkS _)
    omega
  · intro a ha
    apply G1 _ (Dvd.dvd.mul_left hkS _)
    omega
  · intro b hb
    apply G2 _ (Dvd.dvd.mul_left hkS _)
    omega

/-- The binary64 product `n * 0.01` of a whole number `n` up to `2^52`: it lies
between the whole numbers around `n / 100`, and is whole exactly when `n` is a
multiple of 100. -/
theorem shift_hundredth (mf : Fin finiteMags64) (n : Nat) (hn : n ≤ 2 ^ 52)
    (hu : float64.units mf.val = n * unitScale) :
    ∃ mw : Fin finiteMags64,
      float64.mul (.fin false mf) float64.hundredth = .fin false mw ∧
      n / 100 * unitScale ≤ float64.units mw.val ∧
      float64.units mw.val < (n / 100 + 1) * unitScale ∧
      (n % 100 = 0 → float64.units mw.val = n / 100 * unitScale) ∧
      (n % 100 ≠ 0 → n / 100 * unitScale < float64.units mw.val) := by
  have e52 : (2:Nat) ^ 52 = 4503599627370496 := by norm_num
  have e53 : (2:Nat) ^ 53 = 9007199254740992 := by norm_num
  rw [e52] at hn
  obtain ⟨T, hT, hS, hc⟩ := units_hundredth
  have hmul : float64.mul (.fin false mf) float64.hundredth =
      float64.round false (n * (5764607523034235 * T)) 1 := by
    have := mul_fin false false mf ⟨0x3F847AE147AE147B, by decide⟩ (n * (5764607523034235 * T))
      (by rw [hu, hc]; ring)
    simpa [float64.hundredth] using this
  have hdm := Nat.div_add_mod n 100
  have hml := Nat.mod_lt n (show 0 < 100 by norm_num)
  generalize n / 100 = j at hdm ⊢
  generalize n % 100 = t at hdm hml ⊢
  have hX : n * T = 100 * (j * T) + t * T := by rw [← hdm]; ring
  have hF1 : n * T ≤ 4503599627370496 * T := Nat.mul_le_mul_right T hn
  have hF2 : t * T + T ≤ 100 * T := by
    have : (t + 1) * T ≤ 100 * T := Nat.mul_le_mul_right T hml
    linarith
  have hV : n * (5764607523034235 * T) = 576460752303423500 * (j * T) + 5764607523034235 * (t * T) := by
    rw [← hdm]; ring
  obtain ⟨mw, k, hr, hk, hdvd, hVlt, hVge, G1, G2, G3⟩ :=
    round_grid false (n * (5764607523034235 * T)) (by rw [e53, hS, hV]; omega)
  have hkS : 2 ^ k ∣ unitScale := pow_dvd_unitScale k hk
  rw [e53] at hVlt
  rw [e52] at hVge
  have hPpos : 0 < 2 ^ k := pow_pos (by norm_num) _
  have hjS : ∀ i : Nat, i * unitScale = 576460752303423488 * (i * T) := by
    intro i; rw [hS]; ring
  have hPc : 2 ^ k ≤ 5764607523034235 * T := by
    rcases Nat.eq_zero_or_pos k with h0 | hpos
    · rw [h0]; omega
    · have := hVge hpos
      generalize 2 ^ k = P at this
      omega
  have hW1 : j * unitScale ≤ float64.units mw.val := by
    apply G1 _ (Dvd.dvd.mul_left hkS _)
    rw [hjS, hV]; omega
  refine ⟨mw, by rw [hmul, hr], hW1, ?_, ?_, ?_⟩
  · apply G3 _ (Dvd.dvd.mul_left hkS _)
    rw [hjS, hV]
    have : (j + 1) * T = j * T + T := by ring
    rw [this]
    generalize 2 ^ k = P at hPc
    omega
  · intro ht
    subst ht
    have hlt : float64.units mw.val < j * unitScale + 2 ^ k := by
      apply G3 _ (dvd_add (Dvd.dvd.mul_left hkS _) (dvd_refl _))
      rw [hjS, hV]
      generalize 2 ^ k = P at hVlt hPpos
      rw [hV] at hVlt
      omega
    have hd : 2 ^ k ∣ float64.units mw.val - j * unitScale :=
      Nat.dvd_sub' hdvd (Dvd.dvd.mul_left hkS _)
    have hz := Nat.eq_zero_of_dvd_of_lt hd (by omega)
    omega
  · intro ht
    have hTt : T ≤ t * T := Nat.le_mul_of_pos_left T (by omega)
    have : j * unitScale + 2 ^ k ≤ float64.units mw.val := by
      apply G1 _ (dvd_add (Dvd.dvd.mul_left hkS _) (dvd_refl _))
      rw [hjS, hV]
      generalize 2 ^ k = P at hPc
      omega
    omega

theorem pow10_two : math.Pow10 DefaultRoundPrecision = float64.hundred := by decide!

theorem pow10_minus_two :
    math.Pow10 (int64.mul DefaultRoundPrecision (int64.lit (-1))) = float64.hundredth := by
  decide!

/-- The first three steps of the rounding without argument, on a non-negative
`x` with `100 * x < 2^52`: `z = x * 100`, `n = int64(z)`, `w = float64(n) * 0.01`,
all in binary64.  `z` and `w` stay between the whole numbers around `100 * x`
and `x`. -/
theorem noDigits_core (m : Fin finiteMags64)
    (h : 100 * float64.units m.val < 2 ^ 52 * unitScale) :
    ∃ mz mw : Fin finiteMags64,
      float64.mul (.fin false m) (math.Pow10 DefaultRoundPrecision) = .fin false mz ∧
      float64.mul (float64.ofInt64 (float64.toInt64 (.fin false mz)))
        (math.Pow10 (int64.mul DefaultRoundPrecision (int64.lit (-1)))) = .fin false mw ∧
      (100 * (float64.units m.val / unitScale * unitScale) ≤ float64.units mz.val ∧
       float64.units mz.val < 100 * ((float64.units m.val / unitScale + 1) * unitScale) ∧
       (∀ a : Nat, a * unitScale ≤ 100 * float64.units m.val →
          a * unitScale ≤ float64.units mz.val) ∧
       (∀ b : Nat, 100 * float64.units m.val ≤ b * unitScale →
          float64.units mz.val ≤ b * unitScale)) ∧
      float64.units m.val / unitScale * unitScale ≤ float64.units mw.val ∧
      float64.units mw.val < (float64.units m.val / unitScale + 1) * unitScale ∧
      (float64.units mz.val / unitScale = 100 * (float64.units m.val / unitScale) →
        float64.units mw.val = float64.units m.val / unitScale * unitScale) ∧
      (float64.units mz.val / unitScale ≠ 100 * (float64.units m.val / unitScale) →
        float64.units m.val / unitScale * unitScale < float64.units mw.val) := by
  have hS := unitScale_pos
  have e52 : (2:Nat) ^ 52 = 4503599627370496 := by norm_num
  obtain ⟨mz, hz, hZ1, hZ2, hZ3, hZ4, hZ5⟩ := shift_hundred m h
  have hn52 : float64.units mz.val / unitScale ≤ 2 ^ 52 :=
    Nat.div_le_of_le_mul (by rw [Nat.mul_comm]; exact hZ3)
  have hlo : 100 * (float64.units m.val / unitScale) ≤ float64.units mz.val / unitScale := by
    apply (Nat.le_div_iff_mul_le hS).2
    rw [Nat.mul_assoc]; exact hZ1
  have hhi : float64.units mz.val / unitScale < 100 * (float64.units m.val / unitScale + 1) := by
    apply (Nat.div_lt_iff_lt_mul hS).2
    rw [Nat.mul_assoc]; exact hZ2
  have hti := toInt64_spec mz (by rw [e52] at hn52; omega)
  obtain ⟨mf, hf, hfu⟩ := ofInt64_spec (float64.toInt64 (.fin false mz))
    (by rw [hti]; exact Int.natCast_nonneg _)
    (by rw [hti]; rw [e52] at hn52; omega)
  rw [hti, Int.toNat_natCast] at hfu
  obtain ⟨mw, hw, hW1, hW2, hW3, hW4⟩ := shift_hundredth mf _ hn52 hfu
  have hj : float64.units mz.val / unitScale / 100 = float64.units m.val / unitScale := by
    omega
  rw [hj] at hW1 hW2 hW3 hW4
  refine ⟨mz, mw, by rw [pow10_two, hz], by rw [pow10_minus_two, hf, hw],
    ⟨hZ1, hZ2, hZ4, hZ5⟩, hW1, hW2, ?_, ?_⟩
  · intro he
    apply hW3
    omega
  · intro he
    apply hW4
    omega

theorem noDigits_roundUp_units (m : Fin finiteMags64)
    (h : 100 * float64.units m.val < 2 ^ 52 * unitScale) :
    ∃ mz m' : Fin finiteMags64,
      float64.mul (.fin false m) (math.Pow10 DefaultRoundPrecision) = .fin false mz ∧
      floatNumber.RoundUp.noDigits (.fin false m) = .ofFloat (.fin false m') ∧
      float64.units m'.val =
        (if float64.units mz.val / unitScale = 100 * (float64.units m.val / unitScale)
          then float64.units m.val / unitScale
          else float64.units m.val / unitScale + 1) * unitScale ∧
      (100 * (float64.units m.val / unitScale * unitScale) ≤ float64.units mz.val ∧
       float64.units mz.val < 100 * ((float64.units m.val / unitScale + 1) * unitScale) ∧
       (∀ a : Nat, a * unitScale ≤ 100 * float64.units m.val →
          a * unitScale ≤ float64.units mz.val) ∧
       (∀ b : Nat, 100 * float64.units m.val ≤ b * unitScale →
          float64.units mz.val ≤ b * unitScale)) := by
  have hS := unitScale_pos
  have e52 : (2:Nat) ^ 52 = 4503599627370496 := by norm_num
  have e53 : (2:Nat) ^ 53 = 9007199254740992 := by norm_num
  obtain ⟨mz, mw, hz, hw, hZ, hW1, hW2, hW3, hW4⟩ := noDigits_core m h
  have hq : float64.units mw.val / unitScale = float64.units m.val / unitScale := by
    apply Nat.div_eq_of_lt_le
    · exact hW1
    · exact hW2
  have hj : float64.units m.val / unitScale < 2 ^ 52 := by
    apply (Nat.div_lt_iff_lt_mul hS).2
    rw [e52] at h ⊢; omega
  have hmod : (float64.units mw.val % unitScale = 0) ↔
      (float64.units mz.val / unitScale = 100 * (float64.units m.val / unitScale)) := by
    constructor
    · intro h0
      by_contra hne
      have h1 := hW4 hne
      have h2 := Nat.div_add_mod (float64.units mw.val) unitScale
      rw [h0, hq, Nat.add_zero, Nat.mul_comm] at h2
      omega
    · intro he
      rw [hW3 he]
      exact Nat.mul_mod_left _ _
  obtain ⟨m', hm', hu'⟩ := round_whole true
    (if float64.units mz.val / unitScale = 100 * (float64.units m.val / unitScale)
      then float64.units m.val / unitScale else float64.units m.val / unitScale + 1)
    (by rw [e53]; rw [e52] at hj; split_ifs <;> omega)
  refine ⟨mz, m', hz, ?_, hu', hZ⟩
  simp only [floatNumber.RoundUp.noDigits, floatNumber.ShiftDecimal, Number.GetInt,
    floatNumber.GetInt, Of, Number.ShiftDecimal, intNumber.ShiftDecimal, Number.GetFloat,
    floatNumber.GetFloat, hz, hw, math.Ceil, float64.neg, math.Floor, Bool.not_false, Bool.not_true, if_true,
    hq, hmod, hm']

/-- A hypothesis on the exact value, in units. -/
theorem units_lt_of_toRat (m : Fin finiteMags64)
    (h : float64.toRat (.fin false m) * 100 < 4503599627370496) :
    100 * float64.units m.val < 2 ^ 52 * unitScale := by
  have hS : (0:ℚ) < (unitScale : ℚ) := by exact_mod_cast unitScale_pos
  rw [(toRat_nonneg m).1, div_mul_eq_mul_div, div_lt_iff₀ hS] at h
  have e52 : (2:Nat) ^ 52 = 4503599627370496 := by norm_num
  rw [e52]
  have h2 : ((float64.units m.val * 100 : ℕ) : ℚ) < ((4503599627370496 * unitScale : ℕ) : ℚ) := by
    rw [Nat.cast_mul, Nat.cast_mul]
    exact_mod_cast h
  have h3 := Nat.cast_lt.1 h2
  omega

theorem cast_div_lt (a b S : Nat) (hS : 0 < S) : ((a : ℚ) / S < b ↔ a < b * S) := by
  have hS' : (0:ℚ) < (S : ℚ) := by exact_mod_cast hS
  rw [div_lt_iff₀ hS']
  constructor
  · intro h
    have h2 : ((a : ℕ) : ℚ) < ((b * S : ℕ) : ℚ) := by rw [Nat.cast_mul]; exact h
    exact Nat.cast_lt.1 h2
  · intro h
    have h2 : ((a : ℕ) : ℚ) < ((b * S : ℕ) : ℚ) := Nat.cast_lt.2 h
    rw [Nat.cast_mul] at h2; exact h2

theorem cast_le_div (a b S : Nat) (hS : 0 < S) : ((b : ℚ) ≤ (a : ℚ) / S ↔ b * S ≤ a) := by
  have hS' : (0:ℚ) < (S : ℚ) := by exact_mod_cast hS
  rw [le_div_iff₀ hS']
  constructor
  · intro h
    have h2 : ((b * S : ℕ) : ℚ) ≤ ((a : ℕ) : ℚ) := by rw [Nat.cast_mul]; exact h
    exact Nat.cast_le.1 h2
  · intro h
    have h2 : ((b * S : ℕ) : ℚ) ≤ ((a : ℕ) : ℚ) := Nat.cast_le.2 h
    rw [Nat.cast_mul] at h2; exact h2

/-- `RoundUp()` on binary64, for a positive `x` with `100 * x < 2^52`, on the
exact values. -/
theorem noDigits_roundUp_value (m : Fin finiteMags64)
    (hlt : float64.toRat (.fin false m) * 100 < 4503599627370496) :
    ∃ mz m' : Fin finiteMags64,
      float64.mul (.fin false m) (math.Pow10 DefaultRoundPrecision) = .fin false mz ∧
      floatNumber.RoundUp.noDigits (.fin false m) = .ofFloat (.fin false m') ∧
      float64.toRat (.fin false m') =
        (if float64.toRat (.fin false mz) < (⌊float64.toRat (.fin false m)⌋ : ℚ) * 100 + 1
          then (⌊float64.toRat (.fin false m)⌋ : ℚ)
          else (⌊float64.toRat (.fin false m)⌋ : ℚ) + 1) ∧
      ((⌊float64.toRat (.fin false m)⌋ : ℚ) * 100 ≤ float64.toRat (.fin false mz)) ∧
      ((⌊float64.toRat (.fin false m)⌋ : ℚ) + 1 / 100 ≤ float64.toRat (.fin false m) →
        (⌊float64.toRat (.fin false m)⌋ : ℚ) * 100 + 1 ≤ float64.toRat (.fin false mz)) ∧
      (float64.toRat (.fin false m) ≤ (⌊float64.toRat (.fin false m)⌋ : ℚ) + 1 / 100 →
        float64.toRat (.fin false mz) ≤ (⌊float64.toRat (.fin false m)⌋ : ℚ) * 100 + 1) := by
  have hS := unitScale_pos
  have hS' : (0:ℚ) < (unitScale : ℚ) := by exact_mod_cast hS
  obtain ⟨mz, m', hz, hr, hu', hZ1, hZ2, hZ4, hZ5⟩ := noDigits_roundUp_units m (units_lt_of_toRat m hlt)
  refine ⟨mz, m', hz, hr, ?_, ?_, ?_, ?_⟩
  all_goals
    rw [(toRat_nonneg m).1, (toRat_nonneg mz).1,
      (floor_units (float64.units m.val) unitScale hS).1, Int.cast_natCast]
  · rw [toRat_of_units false m' _ hu']
    simp only [Bool.false_eq_true, if_false]
    have hiff : ((float64.units mz.val : ℚ) / (unitScale : ℚ)
          < ((float64.units m.val / unitScale : ℕ) : ℚ) * 100 + 1) ↔
        float64.units mz.val / unitScale = 100 * (float64.units m.val / unitScale) := by
      have hc := cast_div_lt (float64.units mz.val)
        (float64.units m.val / unitScale * 100 + 1) unitScale hS
      rw [Nat.cast_add, Nat.cast_mul, Nat.cast_one, Nat.cast_ofNat] at hc
      rw [hc]
      constructor
      · intro h
        apply Nat.div_eq_of_lt_le
        · rw [Nat.mul_assoc]; exact hZ1
        · rw [Nat.mul_comm (float64.units m.val / unitScale) 100] at h; exact h
      · intro h
        have := (Nat.div_lt_iff_lt_mul hS).1 (show float64.units mz.val / unitScale
          < float64.units m.val / unitScale * 100 + 1 by omega)
        exact this
    by_cases hc : float64.units mz.val / unitScale = 100 * (float64.units m.val / unitScale)
    · rw [if_pos hc, if_pos (hiff.2 hc)]
    · rw [if_neg hc, if_neg (fun h => hc (hiff.1 h))]
      push_cast
      ring
  · have := (cast_le_div (float64.units mz.val) (float64.units m.val / unitScale * 100)
      unitScale hS).2 (by rw [Nat.mul_comm _ 100, Nat.mul_assoc]; exact hZ1)
    rw [Nat.cast_mul, Nat.cast_ofNat] at this
    exact this
  · intro h
    have h1 : (((float64.units m.val / unitScale * 100 + 1 : ℕ)) : ℚ)
        ≤ ((100 * float64.units m.val : ℕ) : ℚ) / (unitScale : ℚ) := by
      push_cast
      rw [mul_div_assoc]
      linarith
    have h2 := (cast_le_div _ _ unitScale hS).1 h1
    have h3 := hZ4 _ h2
    have h4 := (cast_le_div _ _ unitScale hS).2 h3
    push_cast at h4
    exact h4
  · intro h
    have h1 : ((100 * float64.units m.val : ℕ) : ℚ)
        ≤ (((float64.units m.val / unitScale * 100 + 1) * unitScale : ℕ) : ℚ) := by
      push_cast
      rw [div_le_iff₀ hS'] at h
      linarith
    have h2 := Nat.cast_le.1 h1
    have h3 := hZ5 _ h2
    rw [div_le_iff₀ hS']
    have h4 : ((float64.units mz.val : ℕ) : ℚ)
        ≤ (((float64.units m.val / unitScale * 100 + 1) * unitScale : ℕ) : ℚ) := Nat.cast_le.2 h3
    push_cast at h4
    exact h4

/-! ### `Round` -/

/-- C14 fails as stated: the float `2^-10 = 0.0009765625` is positive and not
whole, its ceiling is 1, yet `RoundUp()` returns 0.0 on binary64: the value is
cut to two decimals before the ceiling is taken. -/
theorem roundUp_counterexample :
    (Number.ofFloat float64.twoPowNeg10).RoundUp [] = Number.ofFloat float64.zero ∧
    float64.toRat float64.twoPowNeg10 = 1 / 1024 ∧
    ⌈float64.toRat float64.twoPowNeg10⌉ = 1 ∧
    float64.toRat float64.zero = 0 := by
  decide!

/-- C14, amended, on binary64: for every positive finite `x` with
`100 * x < 2^52`, `x.RoundUp()` with no argument is a finite float-backed whole
number, `floor(x)` or `floor(x) + 1`: it is `floor(x)` exactly when the binary64
product `z = x * 100` stays below `100 * floor(x) + 1`.  So it is the ceiling of
`x` whenever the fractional part of `x` is at least 0.01; when the fractional
part is below 0.01, `z` is at most `100 * floor(x) + 1`, and the result is
`floor(x)` unless the product rounds up to that bound, in particular it is
`floor(x)` when the product is exact.  `RoundUp()` of 0.1 and of 0.5 is 1.0, of
3.01 (whose float lies below 3.01) it is 4.0. -/
theorem roundUp_noDigits (x : floatNumber) (hfin : x.isFinite = true)
    (hpos : 0 < float64.toRat x) (hlt : float64.toRat x * 100 < 4503599627370496) :
    (∃ r : float64,
      floatNumber.RoundUp x [] = .ofFloat r ∧ r.isFinite = true ∧
      (float64.mul x (math.Pow10 DefaultRoundPrecision)).isFinite = true ∧
      float64.toRat r =
        (if float64.toRat (float64.mul x (math.Pow10 DefaultRoundPrecision))
            < (⌊float64.toRat x⌋ : ℚ) * 100 + 1
          then (⌊float64.toRat x⌋ : ℚ) else (⌊float64.toRat x⌋ : ℚ) + 1) ∧
      ((⌊float64.toRat x⌋ : ℚ) + 1 / 100 ≤ float64.toRat x →
        float64.toRat r = (⌈float64.toRat x⌉ : ℚ)) ∧
      (float64.toRat x < (⌊float64.toRat x⌋ : ℚ) + 1 / 100 →
        float64.toRat (float64.mul x (math.Pow10 DefaultRoundPrecision))
          ≤ (⌊float64.toRat x⌋ : ℚ) * 100 + 1) ∧
      (float64.toRat x < (⌊float64.toRat x⌋ : ℚ) + 1 / 100 →
        float64.toRat (float64.mul x (math.Pow10 DefaultRoundPrecision))
          = float64.toRat x * 100 →
        float64.toRat r = (⌊float64.toRat x⌋ : ℚ))) ∧
    (Number.ofFloat float64.tenth).RoundUp [] = Number.ofFloat float64.one ∧
    (Number.ofFloat float64.half).RoundUp [] = Number.ofFloat float64.one ∧
    (Number.ofFloat float64.threePointZeroOne).RoundUp []
      = Number.ofFloat (.fin false ⟨0x4010000000000000, by decide⟩) := by
  refine ⟨?_, by decide!, by decide!, by decide!⟩
  cases x with
  | nan => simp [float64.isFinite] at hfin
  | inf s => simp [float64.isFinite] at hfin
  | fin s m =>
    cases s
    · obtain ⟨mz, m', hz, hr, hv, hz0, hz1, hz2⟩ := noDigits_roundUp_value m hlt
      rw [hz]
      refine ⟨.fin false m', ?_, rfl, rfl, hv, ?_, ?_, ?_⟩
      · simp only [floatNumber.RoundUp, hr]
      · intro h
        have h1 := hz1 h
        rw [hv, if_neg (not_lt.2 h1)]
        have hc : ⌈float64.toRat (.fin false m)⌉ = ⌊float64.toRat (.fin false m)⌋ + 1 := by
          rw [Int.ceil_eq_iff]
          constructor
          · push_cast; linarith
          · push_cast; exact le_of_lt (Int.lt_floor_add_one _)
        rw [hc]; push_cast; rfl
      · intro h
        exact hz2 (le_of_lt h)
      · intro h he
        rw [hv, if_pos (by rw [he]; linarith)]
    · exfalso
      have := toRat_neg false m
      rw [Bool.not_false] at this
      rw [this] at hpos
      have := (toRat_nonneg m).2
      linarith

/-- C14, amended, at the float 0.1: `RoundUp()` is 1.0, the ceiling. -/
theorem roundUp_noDigits_witness :
    float64.tenth.isFinite = true ∧ 0 < float64.toRat float64.tenth ∧
    float64.toRat float64.tenth * 100 < 4503599627370496 ∧
    ∃ r : float64, floatNumber.RoundUp float64.tenth [] = .ofFloat r ∧
      float64.toRat r = (⌈float64.toRat float64.tenth⌉ : ℚ) := by
  obtain ⟨r, h1, _, _, _, h5, _⟩ :=
    (roundUp_noDigits float64.tenth (by decide) (by decide!) (by decide!)).1
  exact ⟨by decide, by decide!, by decide!, r, h1, h5 (by decide!)⟩

/-! ### `RoundDown` -/

end number
